import Mathlib

/-!
Verification of the OpenPGP key-handling core (transferable keys, secret-key
protection, self-signature generation, structural validation) against its
natural-language specification.  The C sources are shallowly embedded: machine
integers become `Nat` with explicit `% 2^w` where overflow matters, fallible
code returns `Except rnpResult _` or an `rnpResult` code, and external
cryptographic collaborators (hashing, CFB, S2K, signing) are passed in as
explicit function parameters, mirroring the spec's "injected collaborator"
design.
-/

namespace Rnp

/-- Result codes exposed by the library (spec section 6, "Errors exposed"). -/
inductive rnpResult where
  | success
  | outOfMemory
  | badParameters
  | badFormat
  | badState
  | decryptFailed
  | writeErr
  | rngErr
  | generic
  | nullPointer
deriving DecidableEq, Repr

/-- Packet tags relevant to the key subsystem (PGP_PKT_*). -/
inductive PktTag where
  | publicKey
  | publicSubkey
  | secretKey
  | secretSubkey
  | userId
  | userAttr
  | signature
  | trust
  | reserved
deriving DecidableEq, Repr

def is_secret_key_pkt (t : PktTag) : Bool :=
  t == PktTag.secretKey || t == PktTag.secretSubkey

def is_public_key_pkt (t : PktTag) : Bool :=
  t == PktTag.publicKey || t == PktTag.publicSubkey

def is_primary_key_pkt (t : PktTag) : Bool :=
  t == PktTag.publicKey || t == PktTag.secretKey

def is_subkey_pkt (t : PktTag) : Bool :=
  t == PktTag.publicSubkey || t == PktTag.secretSubkey

/-- Public-key algorithms (PGP_PKA_*). -/
inductive PubKeyAlg where
  | rsa
  | rsaEncryptOnly
  | rsaSignOnly
  | dsa
  | elgamal
  | elgamalEncryptOrSign
  | ecdsa
  | eddsa
  | sm2
  | ecdh
deriving DecidableEq, Repr

def is_rsa_key_alg (a : PubKeyAlg) : Bool :=
  a == PubKeyAlg.rsa || a == PubKeyAlg.rsaEncryptOnly || a == PubKeyAlg.rsaSignOnly

/-- Hash algorithms (PGP_HASH_*). -/
inductive HashAlg where
  | unknown
  | md5
  | sha1
  | ripemd
  | sha256
  | sha384
  | sha512
  | sha224
  | sm3
deriving DecidableEq, Repr

/-- Modelled from the spec: `pgp_digest_length` lives in the crypto
collaborator (not under src/); digest sizes are the standard RFC 4880 ones. -/
def pgp_digest_length : HashAlg → Nat
  | HashAlg.unknown => 0
  | HashAlg.md5 => 16
  | HashAlg.sha1 => 20
  | HashAlg.ripemd => 20
  | HashAlg.sha256 => 32
  | HashAlg.sha384 => 48
  | HashAlg.sha512 => 64
  | HashAlg.sha224 => 28
  | HashAlg.sm3 => 32

/-- Elliptic curves used by ECDSA keys. -/
inductive Curve where
  | p256
  | p384
  | p521
  | unknownCurve
deriving DecidableEq, Repr

/-- Modelled from the spec: `ecdsa_get_min_hash` lives in the crypto
collaborator (not under src/); "For ECDSA: min hash is curve-dependent". -/
def ecdsa_get_min_hash : Curve → HashAlg
  | Curve.p256 => HashAlg.sha256
  | Curve.p384 => HashAlg.sha384
  | Curve.p521 => HashAlg.sha512
  | Curve.unknownCurve => HashAlg.unknown

/-- Modelled from the spec: `dsa_get_min_hash` lives in the crypto
collaborator (not under src/); "For DSA: hash digest length must be
>= Q-bits/8 (min hash determined from Q)": the weakest standard hash whose
digest is at least `qbits/8` bytes long. -/
def dsa_get_min_hash (qbits : Nat) : HashAlg :=
  if pgp_digest_length HashAlg.sha1 * 8 >= qbits then HashAlg.sha1
  else if pgp_digest_length HashAlg.sha224 * 8 >= qbits then HashAlg.sha224
  else if pgp_digest_length HashAlg.sha256 * 8 >= qbits then HashAlg.sha256
  else if pgp_digest_length HashAlg.sha384 * 8 >= qbits then HashAlg.sha384
  else if pgp_digest_length HashAlg.sha512 * 8 >= qbits then HashAlg.sha512
  else HashAlg.unknown

/-- A multi-precision integer is kept as its big-endian byte string. -/
def Mpi := List Nat
deriving DecidableEq, Repr

/-- Number of significant bits of a byte value. -/
def byte_bits (b : Nat) : Nat :=
  if b == 0 then 0
  else if b < 2 then 1
  else if b < 4 then 2
  else if b < 8 then 3
  else if b < 16 then 4
  else if b < 32 then 5
  else if b < 64 then 6
  else if b < 128 then 7
  else 8

/-- Modelled from the spec: `mpi_bits` lives in the MPI utilities of the
crypto collaborator; bit length of the big-endian byte string, ignoring
leading zero bytes. -/
def mpi_bits (m : Mpi) : Nat :=
  let s := List.dropWhile (fun b => b == 0) m
  match s with
  | [] => 0
  | b :: rest => 8 * rest.length + byte_bits b

/-- Key material: algorithm tag, `secret` presence flag and the per-algorithm
MPI fields (public and secret) of `pgp_key_material_t`. -/
structure KeyMaterial where
  alg : PubKeyAlg
  secret : Bool
  rsa_n : Mpi
  rsa_e : Mpi
  rsa_d : Mpi
  rsa_p : Mpi
  rsa_q : Mpi
  rsa_u : Mpi
  dsa_p : Mpi
  dsa_q : Mpi
  dsa_g : Mpi
  dsa_y : Mpi
  dsa_x : Mpi
  eg_p : Mpi
  eg_g : Mpi
  eg_y : Mpi
  eg_x : Mpi
  ec_curve : Curve
  ec_p : Mpi
  ec_x : Mpi
deriving DecidableEq, Repr

/-- S2K usage values (PGP_S2KU_*). -/
inductive S2KUsage where
  | none
  | encrypted
  | encryptedAndHashed
deriving DecidableEq, Repr

/-- S2K specifier values (PGP_S2KS_*). -/
inductive S2KSpec where
  | simple
  | salted
  | iteratedAndSalted
deriving DecidableEq, Repr

structure S2K where
  usage : S2KUsage
  specifier : S2KSpec
  halg : HashAlg
  salt : List Nat
  iterations : Nat
deriving DecidableEq, Repr

/-- Symmetric ciphers appearing in secret-key protection. -/
inductive SymmAlg where
  | idea
  | tripledes
  | cast5
  | blowfish
  | aes128
  | aes192
  | aes256
  | unknownAlg
deriving DecidableEq, Repr

/-- Modelled from the spec: `pgp_key_size` (cipher key size query) lives in
the crypto collaborator. -/
def pgp_key_size : SymmAlg → Nat
  | SymmAlg.idea => 16
  | SymmAlg.tripledes => 24
  | SymmAlg.cast5 => 16
  | SymmAlg.blowfish => 16
  | SymmAlg.aes128 => 16
  | SymmAlg.aes192 => 24
  | SymmAlg.aes256 => 32
  | SymmAlg.unknownAlg => 0

/-- Modelled from the spec: `pgp_block_size` (cipher block size query) lives
in the crypto collaborator. -/
def pgp_block_size : SymmAlg → Nat
  | SymmAlg.idea => 8
  | SymmAlg.tripledes => 8
  | SymmAlg.cast5 => 8
  | SymmAlg.blowfish => 8
  | SymmAlg.aes128 => 16
  | SymmAlg.aes192 => 16
  | SymmAlg.aes256 => 16
  | SymmAlg.unknownAlg => 0

inductive CipherMode where
  | cfb
  | otherMode
deriving DecidableEq, Repr

structure SecProtection where
  s2k : S2K
  symm_alg : SymmAlg
  cipher_mode : CipherMode
  iv : List Nat
deriving DecidableEq, Repr

/-- Key packet (`pgp_key_pkt_t`): primary or subkey, public or secret. -/
structure KeyPkt where
  tag : PktTag
  version : Nat
  creation_time : Nat
  v3_days : Nat
  alg : PubKeyAlg
  material : KeyMaterial
  sec_protection : SecProtection
  sec_data : List Nat
deriving DecidableEq, Repr

/-- Public material fields of a key, in the algorithm-defined order used by
the canonical serialization. -/
def public_material (m : KeyMaterial) : List Mpi × Curve :=
  match m.alg with
  | PubKeyAlg.rsa | PubKeyAlg.rsaEncryptOnly | PubKeyAlg.rsaSignOnly =>
    ([m.rsa_n, m.rsa_e], Curve.unknownCurve)
  | PubKeyAlg.dsa => ([m.dsa_p, m.dsa_q, m.dsa_g, m.dsa_y], Curve.unknownCurve)
  | PubKeyAlg.elgamal | PubKeyAlg.elgamalEncryptOrSign =>
    ([m.eg_p, m.eg_g, m.eg_y], Curve.unknownCurve)
  | PubKeyAlg.ecdsa | PubKeyAlg.eddsa | PubKeyAlg.sm2 | PubKeyAlg.ecdh =>
    ([m.ec_p], m.ec_curve)

/-- Modelled from the spec: `key_pkt_equal` lives in the stream-key codec,
whose definition is not under src/.  "requires key_pkt_equal(d,s,pubonly=true)
-- i.e., same public half; secret fields are *not* required to match": the
public half is the canonical serialization input (version, creation time,
v3 expiration days, algorithm, public material).  With `pubonly = false` the
secret layer (tag, secret MPI fields, protection, stored blob) must match too. -/
def key_pkt_equal (a b : KeyPkt) (pubonly : Bool) : Bool :=
  a.version == b.version && a.creation_time == b.creation_time &&
  a.v3_days == b.v3_days && a.alg == b.alg &&
  public_material a.material == public_material b.material &&
  (pubonly ||
    (a.tag == b.tag && a.material == b.material &&
     a.sec_protection == b.sec_protection && a.sec_data == b.sec_data))

/-- Signature types (PGP_SIG_* / PGP_CERT_*). -/
inductive SigType where
  | binary
  | certGeneric
  | certPersona
  | certCasual
  | certPositive
  | sigSubkey
  | sigDirect
  | sigPrimary
  | revKey
  | revSubkey
  | revCert
deriving DecidableEq, Repr

mutual

/-- A typed view of a signature subpacket (spec section 4.5).  The embedded
signature subpacket nests a full signature packet. -/
inductive SubPkt where
  | creation : Nat → SubPkt
  | keyExpiration : Nat → SubPkt
  | keyFlags : Nat → SubPkt
  | issuerFp : List Nat → SubPkt
  | issuerKeyId : List Nat → SubPkt
  | primaryUid : Bool → SubPkt
  | prefSymm : List Nat → SubPkt
  | prefHash : List Nat → SubPkt
  | prefZ : List Nat → SubPkt
  | ksPrefs : Nat → SubPkt
  | keyServer : List Nat → SubPkt
  | revocationReason : Nat → List Nat → SubPkt
  | trustPkt : Nat → Nat → SubPkt
  | embedded : Signature → SubPkt

/-- One item fed into a hash context during signature generation: either the
canonical serialization of a key packet, the RFC length-prefixed userid body,
or the frozen hashed region of the signature being computed. -/
inductive HashInput where
  | keyPktIn : KeyPkt → HashInput
  | userIdIn : PktTag → List Nat → HashInput
  | sigDataIn : List SubPkt → HashInput

/-- The signature packet (`pgp_signature_t`): version, type, algorithms, the
two subpacket regions and the MPI signature material (`none` until
`signature_calculate` stores it). -/
inductive Signature where
  | mk : Nat → SigType → PubKeyAlg → HashAlg → List SubPkt → List SubPkt →
         Option (List Nat) → Signature

end

deriving instance Repr for Signature

def Signature.version : Signature → Nat
  | Signature.mk v _ _ _ _ _ _ => v

def Signature.sigType : Signature → SigType
  | Signature.mk _ t _ _ _ _ _ => t

def Signature.palg : Signature → PubKeyAlg
  | Signature.mk _ _ p _ _ _ _ => p

def Signature.halg : Signature → HashAlg
  | Signature.mk _ _ _ h _ _ _ => h

def Signature.hashed : Signature → List SubPkt
  | Signature.mk _ _ _ _ hs _ _ => hs

def Signature.unhashed : Signature → List SubPkt
  | Signature.mk _ _ _ _ _ us _ => us

def Signature.material : Signature → Option (List Nat)
  | Signature.mk _ _ _ _ _ _ m => m

mutual

/-- Byte-level equality of two signature packets seen as serialized wholes;
used for the embedded-signature subpacket, whose bytes are the nested
signature's full serialization. -/
def sigFullEq : Signature → Signature → Bool
  | Signature.mk v t p h hs us m, Signature.mk v' t' p' h' hs' us' m' =>
    v == v' && t == t' && p == p' && h == h' &&
    subPktListEq hs hs' && subPktListEq us us' && m == m'

/-- Byte-level equality of two subpackets. -/
def subPktEq : SubPkt → SubPkt → Bool
  | SubPkt.creation a, SubPkt.creation b => a == b
  | SubPkt.keyExpiration a, SubPkt.keyExpiration b => a == b
  | SubPkt.keyFlags a, SubPkt.keyFlags b => a == b
  | SubPkt.issuerFp a, SubPkt.issuerFp b => a == b
  | SubPkt.issuerKeyId a, SubPkt.issuerKeyId b => a == b
  | SubPkt.primaryUid a, SubPkt.primaryUid b => a == b
  | SubPkt.prefSymm a, SubPkt.prefSymm b => a == b
  | SubPkt.prefHash a, SubPkt.prefHash b => a == b
  | SubPkt.prefZ a, SubPkt.prefZ b => a == b
  | SubPkt.ksPrefs a, SubPkt.ksPrefs b => a == b
  | SubPkt.keyServer a, SubPkt.keyServer b => a == b
  | SubPkt.revocationReason a c, SubPkt.revocationReason b d => a == b && c == d
  | SubPkt.trustPkt a c, SubPkt.trustPkt b d => a == b && c == d
  | SubPkt.embedded s, SubPkt.embedded t => sigFullEq s t
  | _, _ => false

/-- Byte-level equality of two subpacket regions. -/
def subPktListEq : List SubPkt → List SubPkt → Bool
  | [], [] => true
  | a :: as, b :: bs => subPktEq a b && subPktListEq as bs
  | _, _ => false

end

/-- Modelled from the spec: `signature_pkt_equal` lives in the signature
codec, whose definition is not under src/.  "Byte-equality over both
subpacket regions + MPIs defines *packet equality* used by merge." -/
def signature_pkt_equal (a b : Signature) : Bool :=
  subPktListEq a.hashed b.hashed && subPktListEq a.unhashed b.unhashed &&
  a.material == b.material

/-- User-id or user-attribute packet (`pgp_userid_pkt_t`). -/
structure UserIdPkt where
  tag : PktTag
  uid : List Nat
deriving DecidableEq, Repr

/-- Modelled from the spec: `userid_pkt_equal` lives in the stream codec, not
under src/; `transferable_userid_merge` "requires byte-equal UserIdPackets". -/
def userid_pkt_equal (a b : UserIdPkt) : Bool := a == b

structure TransferableUserId where
  uid : UserIdPkt
  signatures : List Signature

structure TransferableSubkey where
  subkey : KeyPkt
  signatures : List Signature

structure TransferableKey where
  key : KeyPkt
  signatures : List Signature
  userids : List TransferableUserId
  subkeys : List TransferableSubkey

/-- `list_has_signature` (src/unnamed/part_000:84). -/
def list_has_signature (lst : List Signature) (sig : Signature) : Bool :=
  lst.any fun lsig => signature_pkt_equal lsig sig

/-- `merge_signatures` (src/unnamed/part_000:102): appends each signature of
`src` not already present (by packet equality) in the growing `dst`. -/
def merge_signatures (dst src : List Signature) : List Signature :=
  src.foldl (fun d sig => if list_has_signature d sig then d else d ++ [sig]) dst

/-- The signatures that `merge_signatures` appends: those of `src` not
byte-equal to any signature already in the destination at the moment they are
processed, kept in source order. -/
def newSigs (dst : List Signature) : List Signature → List Signature
  | [] => []
  | s :: rest =>
    if list_has_signature dst s then newSigs dst rest
    else s :: newSigs (dst ++ [s]) rest

/-- `transferable_userid_merge` (src/unnamed/part_000:121). -/
def transferable_userid_merge (dst src : TransferableUserId) :
    Except rnpResult TransferableUserId :=
  if userid_pkt_equal dst.uid src.uid then
    Except.ok { dst with signatures := merge_signatures dst.signatures src.signatures }
  else Except.error rnpResult.badParameters

/-- `transferable_subkey_merge` (src/unnamed/part_000:184). -/
def transferable_subkey_merge (dst src : TransferableSubkey) :
    Except rnpResult TransferableSubkey :=
  if key_pkt_equal dst.subkey src.subkey true then
    Except.ok { dst with signatures := merge_signatures dst.signatures src.signatures }
  else Except.error rnpResult.badParameters

/-- The userid loop body of `transferable_key_merge`
(src/unnamed/part_000:297): merge into the first existing userid with a
byte-equal packet, or append a copy at the end. -/
def upsertUserid (uids : List TransferableUserId) (u : TransferableUserId) :
    List TransferableUserId :=
  match uids with
  | [] => [u]
  | d :: rest =>
    if userid_pkt_equal d.uid u.uid then
      { d with signatures := merge_signatures d.signatures u.signatures } :: rest
    else d :: upsertUserid rest u

/-- The subkey loop body of `transferable_key_merge`
(src/unnamed/part_000:317): merge into the first existing subkey whose public
half matches, or append a copy at the end. -/
def upsertSubkey (subs : List TransferableSubkey) (s : TransferableSubkey) :
    List TransferableSubkey :=
  match subs with
  | [] => [s]
  | d :: rest =>
    if key_pkt_equal d.subkey s.subkey true then
      { d with signatures := merge_signatures d.signatures s.signatures } :: rest
    else d :: upsertSubkey rest s

/-- `transferable_key_merge` (src/unnamed/part_000:282).  Allocation failures
are not modelled; the publicness-mismatch warning is log-only. -/
def transferable_key_merge (dst src : TransferableKey) :
    Except rnpResult TransferableKey :=
  if key_pkt_equal dst.key src.key true then
    Except.ok
      { key := dst.key
        signatures := merge_signatures dst.signatures src.signatures
        userids := src.userids.foldl upsertUserid dst.userids
        subkeys := src.subkeys.foldl upsertSubkey dst.subkeys }
  else Except.error rnpResult.badParameters

/-- No two userids of the list carry byte-equal userid packets. -/
def uidsDistinct : List TransferableUserId → Bool
  | [] => true
  | d :: rest =>
    rest.all (fun v => !userid_pkt_equal d.uid v.uid) && uidsDistinct rest

/-- No two subkeys of the list have matching public halves. -/
def subkeysDistinct : List TransferableSubkey → Bool
  | [] => true
  | d :: rest =>
    rest.all (fun v => !key_pkt_equal d.subkey v.subkey true) && subkeysDistinct rest

/-- `pgp_hash_adjust_alg_to_key` (src/unnamed/part_001:1639). -/
def pgp_hash_adjust_alg_to_key (hash : HashAlg) (pubkey : KeyPkt) : HashAlg :=
  if pubkey.alg != PubKeyAlg.dsa && pubkey.alg != PubKeyAlg.ecdsa then hash
  else
    let hash_min :=
      if pubkey.alg == PubKeyAlg.ecdsa then ecdsa_get_min_hash pubkey.material.ec_curve
      else dsa_get_min_hash (mpi_bits pubkey.material.dsa_q)
    if pgp_digest_length hash < pgp_digest_length hash_min then hash_min
    else hash

/-! Key-usage flag bits (PGP_KF_*).  The numeric values are the RFC 4880 key
flags; only their distinctness matters here. -/

def PGP_KF_NONE : Nat := 0
def PGP_KF_CERTIFY : Nat := 0x01
def PGP_KF_SIGN : Nat := 0x02
def PGP_KF_ENCRYPT : Nat := 0x0C
def PGP_KF_AUTH : Nat := 0x20

/-- `pgp_pk_alg_capabilities` (src/unnamed/part_001:1048). -/
def pgp_pk_alg_capabilities : PubKeyAlg → Nat
  | PubKeyAlg.rsa => PGP_KF_SIGN ||| PGP_KF_CERTIFY ||| PGP_KF_AUTH ||| PGP_KF_ENCRYPT
  | PubKeyAlg.rsaSignOnly => PGP_KF_SIGN
  | PubKeyAlg.rsaEncryptOnly => PGP_KF_ENCRYPT
  | PubKeyAlg.elgamalEncryptOrSign => PGP_KF_NONE
  | PubKeyAlg.dsa => PGP_KF_SIGN ||| PGP_KF_CERTIFY ||| PGP_KF_AUTH
  | PubKeyAlg.ecdsa => PGP_KF_SIGN ||| PGP_KF_CERTIFY ||| PGP_KF_AUTH
  | PubKeyAlg.eddsa => PGP_KF_SIGN ||| PGP_KF_CERTIFY ||| PGP_KF_AUTH
  | PubKeyAlg.sm2 => PGP_KF_SIGN ||| PGP_KF_CERTIFY ||| PGP_KF_AUTH ||| PGP_KF_ENCRYPT
  | PubKeyAlg.ecdh => PGP_KF_ENCRYPT
  | PubKeyAlg.elgamal => PGP_KF_ENCRYPT

/-! Typed subpacket accessors and setters of the signature codec
(spec section 4.5).  Modelled from the spec: the codec itself is not under
src/.  Lookup scans the hashed region first, then the unhashed one; the
setters used during self-signature generation append to the hashed region,
except the issuer key id and the embedded signature, which are unhashed. -/

def Signature.subpkts (s : Signature) : List SubPkt := s.hashed ++ s.unhashed

def findKeyExpiration : List SubPkt → Option Nat
  | [] => none
  | SubPkt.keyExpiration t :: _ => some t
  | _ :: rest => findKeyExpiration rest

def findCreation : List SubPkt → Option Nat
  | [] => none
  | SubPkt.creation t :: _ => some t
  | _ :: rest => findCreation rest

def findKeyFlags : List SubPkt → Option Nat
  | [] => none
  | SubPkt.keyFlags f :: _ => some f
  | _ :: rest => findKeyFlags rest

def findIssuerFp : List SubPkt → Option (List Nat)
  | [] => none
  | SubPkt.issuerFp fp :: _ => some fp
  | _ :: rest => findIssuerFp rest

def findIssuerKeyId : List SubPkt → Option (List Nat)
  | [] => none
  | SubPkt.issuerKeyId kid :: _ => some kid
  | _ :: rest => findIssuerKeyId rest

def findPrimaryUid : List SubPkt → Option Bool
  | [] => none
  | SubPkt.primaryUid b :: _ => some b
  | _ :: rest => findPrimaryUid rest

def findPrefSymm : List SubPkt → Option (List Nat)
  | [] => none
  | SubPkt.prefSymm l :: _ => some l
  | _ :: rest => findPrefSymm rest

def findPrefHash : List SubPkt → Option (List Nat)
  | [] => none
  | SubPkt.prefHash l :: _ => some l
  | _ :: rest => findPrefHash rest

def findPrefZ : List SubPkt → Option (List Nat)
  | [] => none
  | SubPkt.prefZ l :: _ => some l
  | _ :: rest => findPrefZ rest

def findKsPrefs : List SubPkt → Option Nat
  | [] => none
  | SubPkt.ksPrefs v :: _ => some v
  | _ :: rest => findKsPrefs rest

def findKeyServer : List SubPkt → Option (List Nat)
  | [] => none
  | SubPkt.keyServer s :: _ => some s
  | _ :: rest => findKeyServer rest

def findRevocationReason : List SubPkt → Option (Nat × List Nat)
  | [] => none
  | SubPkt.revocationReason c t :: _ => some (c, t)
  | _ :: rest => findRevocationReason rest

def findTrust : List SubPkt → Option (Nat × Nat)
  | [] => none
  | SubPkt.trustPkt l a :: _ => some (l, a)
  | _ :: rest => findTrust rest

def signature_get_keyfp (s : Signature) : Option (List Nat) := findIssuerFp s.subpkts
def signature_has_keyfp (s : Signature) : Bool := (signature_get_keyfp s).isSome
def signature_get_keyid (s : Signature) : Option (List Nat) := findIssuerKeyId s.subpkts
def signature_has_keyid (s : Signature) : Bool := (signature_get_keyid s).isSome
def signature_get_key_expiration (s : Signature) : Option Nat := findKeyExpiration s.subpkts
def signature_get_trust (s : Signature) : Option (Nat × Nat) := findTrust s.subpkts
def signature_get_primary_uid (s : Signature) : Bool :=
  (findPrimaryUid s.subpkts).getD false
def signature_get_key_flags (s : Signature) : Option Nat := findKeyFlags s.subpkts
def signature_get_preferred_symm_algs (s : Signature) : Option (List Nat) :=
  findPrefSymm s.subpkts
def signature_get_preferred_hash_algs (s : Signature) : Option (List Nat) :=
  findPrefHash s.subpkts
def signature_get_preferred_z_algs (s : Signature) : Option (List Nat) :=
  findPrefZ s.subpkts
def signature_get_key_server_prefs (s : Signature) : Option Nat := findKsPrefs s.subpkts
def signature_get_key_server (s : Signature) : Option (List Nat) := findKeyServer s.subpkts
def signature_get_revocation_reason (s : Signature) : Option (Nat × List Nat) :=
  findRevocationReason s.subpkts
def signature_get_type (s : Signature) : SigType := s.sigType

def addHashedSubpkt (s : Signature) (sp : SubPkt) : Signature :=
  Signature.mk s.version s.sigType s.palg s.halg (s.hashed ++ [sp]) s.unhashed
    s.material

def addUnhashedSubpkt (s : Signature) (sp : SubPkt) : Signature :=
  Signature.mk s.version s.sigType s.palg s.halg s.hashed (s.unhashed ++ [sp])
    s.material

def setMaterial (s : Signature) (mat : List Nat) : Signature :=
  Signature.mk s.version s.sigType s.palg s.halg s.hashed s.unhashed (some mat)

def signature_set_keyfp (s : Signature) (fp : List Nat) : Signature :=
  addHashedSubpkt s (SubPkt.issuerFp fp)
def signature_set_creation (s : Signature) (t : Nat) : Signature :=
  addHashedSubpkt s (SubPkt.creation t)
def signature_set_key_expiration (s : Signature) (t : Nat) : Signature :=
  addHashedSubpkt s (SubPkt.keyExpiration t)
def signature_set_key_flags (s : Signature) (f : Nat) : Signature :=
  addHashedSubpkt s (SubPkt.keyFlags f)
def signature_set_keyid (s : Signature) (kid : List Nat) : Signature :=
  addUnhashedSubpkt s (SubPkt.issuerKeyId kid)
def signature_set_embedded_sig (s : Signature) (emb : Signature) : Signature :=
  addUnhashedSubpkt s (SubPkt.embedded emb)

/-- `signature_calculate` (spec section 4.5), with the content-signing
primitive injected as `signOracle`: it finishes the hash over the fed inputs
plus the signature's own frozen hashed region, signs with the given key
material and stores the MPI result. -/
def signature_calculate (signOracle : List HashInput → KeyMaterial → List Nat)
    (sig : Signature) (material : KeyMaterial) (hash : List HashInput) : Signature :=
  setMaterial sig (signOracle (hash ++ [HashInput.sigDataIn sig.hashed]) material)

/-- `signature_hash_binding` (spec section 4.5): the canonical RFC input for
a subkey binding or primary-key binding is the primary key packet followed by
the subkey packet. -/
def signature_hash_binding (key subkey : KeyPkt) : List HashInput :=
  [HashInput.keyPktIn key, HashInput.keyPktIn subkey]

/-- Binding-info argument of `transferable_subkey_bind`
(`rnp_selfsig_binding_info_t`). -/
structure SelfsigBinding where
  key_expiration : Nat
  key_flags : Nat

/-- `calculate_primary_binding` (src/unnamed/part_000:482): the embedded
primary-key-binding back-signature, signed by the subkey over the hash state
handed in by the caller. -/
def calculate_primary_binding (keyidOf : KeyPkt → List Nat)
    (signOracle : List HashInput → KeyMaterial → List Nat) (now : Nat)
    (subkey : KeyPkt) (halg : HashAlg) (hash : List HashInput) : Signature :=
  let sig0 := Signature.mk 4 SigType.sigPrimary subkey.alg
    (pgp_hash_adjust_alg_to_key halg subkey) [] [] none
  let sig1 := signature_set_creation sig0 now
  let sig2 := signature_set_keyid sig1 (keyidOf subkey)
  signature_calculate signOracle sig2 subkey.material hash

/-- `transferable_subkey_bind` (src/unnamed/part_000:526).  The external
collaborators (keyid/fingerprint derivation, the signing primitive, the
clock) are injected; the RNG only feeds the signing primitive and is folded
into `signOracle`.  Returns the subkey with the new binding signature
appended to its signature list. -/
def transferable_subkey_bind (keyidOf fpOf : KeyPkt → List Nat)
    (signOracle : List HashInput → KeyMaterial → List Nat) (now : Nat)
    (key : KeyPkt) (subkey : TransferableSubkey) (hash_alg : HashAlg)
    (binding : SelfsigBinding) : TransferableSubkey :=
  let keyid := keyidOf key
  let keyfp := fpOf key
  let sig0 := Signature.mk 4 SigType.sigSubkey key.alg
    (pgp_hash_adjust_alg_to_key hash_alg key) [] [] none
  let sig1 := signature_set_keyfp sig0 keyfp
  let sig2 := signature_set_creation sig1 now
  let sig3 := if binding.key_expiration ≠ 0 then
      signature_set_key_expiration sig2 binding.key_expiration
    else sig2
  let sig4 := if binding.key_flags ≠ 0 then
      signature_set_key_flags sig3 binding.key_flags
    else sig3
  let hash := signature_hash_binding key subkey.subkey
  let hashcp := hash
  let sig5 := signature_calculate signOracle sig4 key.material hash
  let realkf := if binding.key_flags ≠ 0 then binding.key_flags
    else pgp_pk_alg_capabilities key.alg
  let sig6 := if realkf &&& PGP_KF_SIGN ≠ 0 then
      signature_set_embedded_sig sig5
        (calculate_primary_binding keyidOf signOracle now subkey.subkey hash_alg hashcp)
    else sig5
  let sig7 := signature_set_keyid sig6 keyid
  { subkey with signatures := subkey.signatures ++ [sig7] }

/-! Secret-key material protection (spec section 4.4). -/

/-- `read_uint16`: big-endian 16-bit read at a byte offset. -/
def read_uint16 (bytes : List Nat) (pos : Nat) : Nat :=
  bytes.getD pos 0 * 256 + bytes.getD (pos + 1) 0

/-- 16-bit modular sum of a byte string (the legacy sum16 integrity value). -/
def sum16 (bytes : List Nat) : Nat :=
  bytes.foldl (fun s b => (s + b) % 65536) 0

/-- The CFB cipher collaborator (spec section 6): a stateful byte transform
plus the historic resync operation.  The state is an abstract byte list. -/
structure CfbOracle where
  start : SymmAlg → List Nat → List Nat → List Nat
  decByte : List Nat → Nat → Nat × List Nat
  encByte : List Nat → Nat → Nat × List Nat
  resync : List Nat → List Nat → List Nat

/-- Run a stateful byte transform over a chunk, returning the transformed
bytes and the final state. -/
def cfbRunChunk (step : List Nat → Nat → Nat × List Nat) :
    List Nat → List Nat → List Nat × List Nat
  | st, [] => ([], st)
  | st, c :: cs =>
    let pst := step st c
    let rest := cfbRunChunk step pst.2 cs
    (pst.1 :: rest.1, rest.2)

/-- The 20 bytes read at offset `len` of a buffer, as `memcmp` against a
20-byte digest reads them. -/
def bytes20_at (mpis : List Nat) (len : Nat) : List Nat :=
  (List.range 20).map (fun i => mpis.getD (len + i) 0)

/-- A packet body being consumed sequentially (`pgp_packet_body_t`). -/
structure PktBody where
  data : List Nat
  pos : Nat

/-- Modelled from the spec: `get_packet_body_mpi` lives in the packet-framing
codec, not under src/; "read MPI (u16 bit length followed by its octets;
leading zero bits inside the first byte must be zero)". -/
def get_packet_body_mpi (body : PktBody) : Option (Mpi × PktBody) :=
  if body.pos + 2 > body.data.length then none
  else
    let bits := read_uint16 body.data body.pos
    let mlen := (bits + 7) / 8
    if body.pos + 2 + mlen > body.data.length then none
    else
      let bytes := (body.data.drop (body.pos + 2)).take mlen
      if mpi_bits bytes == bits then some (bytes, ⟨body.data, body.pos + 2 + mlen⟩)
      else none

/-- The per-algorithm secret-MPI parse of `parse_secret_key_mpis`
(src/unnamed/part_000:1114): which secret fields are read, in order. -/
def parse_secret_mpis_body (m : KeyMaterial) (body : PktBody) :
    Except rnpResult (KeyMaterial × PktBody) :=
  match m.alg with
  | PubKeyAlg.rsa | PubKeyAlg.rsaEncryptOnly | PubKeyAlg.rsaSignOnly =>
    match get_packet_body_mpi body with
    | none => Except.error rnpResult.badFormat
    | some (d, b1) =>
      match get_packet_body_mpi b1 with
      | none => Except.error rnpResult.badFormat
      | some (p, b2) =>
        match get_packet_body_mpi b2 with
        | none => Except.error rnpResult.badFormat
        | some (q, b3) =>
          match get_packet_body_mpi b3 with
          | none => Except.error rnpResult.badFormat
          | some (u, b4) =>
            Except.ok ({ m with rsa_d := d, rsa_p := p, rsa_q := q, rsa_u := u }, b4)
  | PubKeyAlg.dsa =>
    match get_packet_body_mpi body with
    | none => Except.error rnpResult.badFormat
    | some (x, b1) => Except.ok ({ m with dsa_x := x }, b1)
  | PubKeyAlg.eddsa | PubKeyAlg.ecdsa | PubKeyAlg.sm2 | PubKeyAlg.ecdh =>
    match get_packet_body_mpi body with
    | none => Except.error rnpResult.badFormat
    | some (x, b1) => Except.ok ({ m with ec_x := x }, b1)
  | PubKeyAlg.elgamal =>
    match get_packet_body_mpi body with
    | none => Except.error rnpResult.badFormat
    | some (x, b1) => Except.ok ({ m with eg_x := x }, b1)
  | PubKeyAlg.elgamalEncryptOrSign => Except.error rnpResult.badParameters

/-- `parse_secret_key_mpis` (src/unnamed/part_000:1060): checks the sum16 or
SHA-1 trailer over the cleartext, then parses the secret MPIs per algorithm.
The SHA-1 primitive is injected. -/
def parse_secret_key_mpis (sha1 : List Nat → List Nat) (key : KeyPkt)
    (mpis : List Nat) : rnpResult × KeyPkt :=
  let checked : Except rnpResult Nat :=
    match key.sec_protection.s2k.usage with
    | S2KUsage.none | S2KUsage.encrypted =>
      let len := mpis.length - 2
      if sum16 (mpis.take len) != read_uint16 mpis len then
        Except.error rnpResult.decryptFailed
      else Except.ok len
    | S2KUsage.encryptedAndHashed =>
      let len := mpis.length - 20
      let hval := sha1 (mpis.take len)
      if hval.length != 20 then Except.error rnpResult.badState
      else if hval != bytes20_at mpis len then Except.error rnpResult.decryptFailed
      else Except.ok len
  match checked with
  | Except.error e => (e, key)
  | Except.ok len =>
    match parse_secret_mpis_body key.material ⟨mpis.take len, 0⟩ with
    | Except.error e => (e, key)
    | Except.ok (m, body) =>
      if body.pos < body.data.length then (rnpResult.badFormat, key)
      else (rnpResult.success, { key with material := { m with secret := true } })

/-- The four-MPI loop of `decrypt_secret_key_v3` (src/unnamed/part_000:1031):
each MPI keeps its 2-byte cleartext header, is CFB-decrypted, and triggers a
CFB resync on the last cipher block. -/
def decrypt_v3_mpis (cfb : CfbOracle) (enc : List Nat) (blsize : Nat) :
    Nat → Nat → List Nat → List Nat → Except rnpResult (List Nat × Nat)
  | 0, pos, _, acc => Except.ok (acc, pos)
  | Nat.succ n, pos, st, acc =>
    if pos + 2 > enc.length then Except.error rnpResult.badFormat
    else
      let mpilen := (read_uint16 enc pos + 7) / 8
      let header := [enc.getD pos 0, enc.getD (pos + 1) 0]
      let pos2 := pos + 2
      if pos2 + mpilen > enc.length then Except.error rnpResult.badFormat
      else
        let ptst := cfbRunChunk cfb.decByte st ((enc.drop pos2).take mpilen)
        let pos3 := pos2 + mpilen
        if mpilen < blsize then Except.error rnpResult.badFormat
        else
          let st2 := cfb.resync ptst.2 ((enc.drop (pos3 - blsize)).take blsize)
          decrypt_v3_mpis cfb enc blsize n pos3 st2 (acc ++ header ++ ptst.1)

/-- `decrypt_secret_key_v3` (src/unnamed/part_000:1017). -/
def decrypt_secret_key_v3 (cfb : CfbOracle) (blsize : Nat) (st : List Nat)
    (enc : List Nat) : Except rnpResult (List Nat) :=
  if blsize == 0 then Except.error rnpResult.badState
  else
    match decrypt_v3_mpis cfb enc blsize 4 0 st [] with
    | Except.error e => Except.error e
    | Except.ok (dec, pos) =>
      if pos + 2 != enc.length then Except.error rnpResult.badFormat
      else Except.ok (dec ++ [enc.getD pos 0, enc.getD (pos + 1) 0])

/-- `decrypt_secret_key` (src/unnamed/part_000:1155).  The S2K derivation,
the CFB cipher and SHA-1 are injected collaborators; the CFB start primitive
is modelled as total, so its (external) failure path is not represented. -/
def decrypt_secret_key (cfb : CfbOracle) (sha1 : List Nat → List Nat)
    (s2kDerive : S2K → String → Nat → Option (List Nat))
    (key : KeyPkt) (password : Option String) : rnpResult × KeyPkt :=
  if !is_secret_key_pkt key.tag then (rnpResult.badParameters, key)
  else if key.sec_protection.s2k.usage == S2KUsage.none then
    parse_secret_key_mpis sha1 key key.sec_data
  else
    match password with
    | none => (rnpResult.nullPointer, key)
    | some pw =>
      if key.sec_protection.cipher_mode != CipherMode.cfb then
        (rnpResult.badParameters, key)
      else
        let keysize := pgp_key_size key.sec_protection.symm_alg
        if keysize == 0 then (rnpResult.badParameters, key)
        else
          match s2kDerive key.sec_protection.s2k pw keysize with
          | none => (rnpResult.badParameters, key)
          | some keybuf =>
            let st0 := cfb.start key.sec_protection.symm_alg keybuf
              key.sec_protection.iv
            let decRes : Except rnpResult (List Nat) :=
              if key.version == 3 then
                if !is_rsa_key_alg key.alg then Except.error rnpResult.badParameters
                else
                  decrypt_secret_key_v3 cfb
                    (pgp_block_size key.sec_protection.symm_alg) st0 key.sec_data
              else if key.version == 4 then
                Except.ok (cfbRunChunk cfb.decByte st0 key.sec_data).1
              else Except.error rnpResult.badParameters
            match decRes with
            | Except.error e => (e, key)
            | Except.ok dec => parse_secret_key_mpis sha1 key dec

/-- `forget_secret_key_fields` (src/unnamed/part_000:1394). -/
def forget_secret_key_fields (m : KeyMaterial) : KeyMaterial :=
  if !m.secret then m
  else
    let m1 :=
      match m.alg with
      | PubKeyAlg.rsa | PubKeyAlg.rsaEncryptOnly | PubKeyAlg.rsaSignOnly =>
        { m with rsa_d := [], rsa_p := [], rsa_q := [], rsa_u := [] }
      | PubKeyAlg.dsa => { m with dsa_x := [] }
      | PubKeyAlg.elgamal | PubKeyAlg.elgamalEncryptOrSign => { m with eg_x := [] }
      | PubKeyAlg.ecdsa | PubKeyAlg.eddsa | PubKeyAlg.sm2 | PubKeyAlg.ecdh =>
        { m with ec_x := [] }
    { m1 with secret := false }

/-- Canonical MPI write of `add_packet_body_mpi` (modelled from the spec's
MPI I/O description): u16 bit count, then the octets with leading zero bytes
stripped. -/
def encodeMpi (m : Mpi) : List Nat :=
  let bits := mpi_bits m
  let stripped := List.dropWhile (fun b => b == 0) m
  [bits / 256 % 256, bits % 256] ++ stripped

/-- `write_secret_key_mpis` (src/unnamed/part_000:1236): the secret MPI
stream followed by the sum16 or SHA-1 trailer. -/
def write_secret_key_mpis (sha1 : List Nat → List Nat) (key : KeyPkt) :
    Option (List Nat) :=
  let mpisOpt : Option (List Mpi) :=
    match key.alg with
    | PubKeyAlg.rsa | PubKeyAlg.rsaEncryptOnly | PubKeyAlg.rsaSignOnly =>
      some [key.material.rsa_d, key.material.rsa_p, key.material.rsa_q,
            key.material.rsa_u]
    | PubKeyAlg.dsa => some [key.material.dsa_x]
    | PubKeyAlg.eddsa | PubKeyAlg.ecdsa | PubKeyAlg.sm2 | PubKeyAlg.ecdh =>
      some [key.material.ec_x]
    | PubKeyAlg.elgamal => some [key.material.eg_x]
    | PubKeyAlg.elgamalEncryptOrSign => none
  match mpisOpt with
  | none => none
  | some l =>
    let body := l.flatMap encodeMpi
    if key.sec_protection.s2k.usage != S2KUsage.encryptedAndHashed then
      let s := sum16 body
      some (body ++ [s / 256 % 256, s % 256])
    else
      let hval := sha1 body
      if hval.length != 20 then none else some (body ++ hval)

def PGP_SALT_SIZE : Nat := 8

/-- The IV/salt generation step of `encrypt_secret_key`
(src/unnamed/part_000:1338): fill the IV with a cipher block of random
bytes, and the s2k salt too unless the specifier is Simple. -/
def protection_fill_random (sp : SecProtection) (rng : Nat → List Nat) :
    SecProtection :=
  { sp with
    iv := rng (pgp_block_size sp.symm_alg)
    s2k := if sp.s2k.specifier != S2KSpec.simple then
        { sp.s2k with salt := rng PGP_SALT_SIZE }
      else sp.s2k }

/-- `encrypt_secret_key` (src/unnamed/part_000:1296).  The RNG is injected as
a total byte supply (`rng n` = the next `n` random bytes); the optional
process-default RNG fallback of the source behaves identically here. -/
def encrypt_secret_key (cfb : CfbOracle) (sha1 : List Nat → List Nat)
    (s2kDerive : S2K → String → Nat → Option (List Nat)) (rng : Nat → List Nat)
    (key : KeyPkt) (password : String) : rnpResult × KeyPkt :=
  if !is_secret_key_pkt key.tag || !key.material.secret then
    (rnpResult.badParameters, key)
  else if key.sec_protection.s2k.usage != S2KUsage.none &&
      key.sec_protection.cipher_mode != CipherMode.cfb then
    (rnpResult.badParameters, key)
  else
    match write_secret_key_mpis sha1 key with
    | none => (rnpResult.outOfMemory, key)
    | some body =>
      if key.sec_protection.s2k.usage == S2KUsage.none then
        (rnpResult.success, { key with sec_data := body })
      else
        let keysize := pgp_key_size key.sec_protection.symm_alg
        let blsize := pgp_block_size key.sec_protection.symm_alg
        if keysize == 0 || blsize == 0 then (rnpResult.badParameters, key)
        else
          let key1 := { key with
            sec_protection := protection_fill_random key.sec_protection rng }
          match s2kDerive (protection_fill_random key.sec_protection rng).s2k
              password keysize with
          | none => (rnpResult.badParameters, key1)
          | some keybuf =>
            if key1.version < 4 then (rnpResult.badParameters, key1)
            else
              let st0 := cfb.start key1.sec_protection.symm_alg keybuf
                key1.sec_protection.iv
              let ct := (cfbRunChunk cfb.encByte st0 body).1
              (rnpResult.success,
                { key1 with
                  sec_data := ct
                  material := forget_secret_key_fields key1.material })

/-! The rich key facade (`pgp_key_t`) and `rnp_key_add_signature`
(src/src/librekey/key_store_pgp.cpp). -/

/-- Parsed user preferences of a subsig (`pgp_user_prefs_t`). -/
structure UserPrefs where
  symm_algs : List Nat
  hash_algs : List Nat
  z_algs : List Nat
  ks_prefs : List Nat
  key_server : List Nat
deriving DecidableEq, Repr

def emptyPrefs : UserPrefs := ⟨[], [], [], [], []⟩

/-- A signature attached to a rich key (`pgp_subsig_t`). -/
structure Subsig where
  uid : Nat
  sig : Signature
  trustlevel : Nat
  trustamount : Nat
  key_flags : Nat
  prefs : UserPrefs

/-- A userid of a rich key (`pgp_userid_t`). -/
structure PgpUserid where
  str : List Nat
  pkt : UserIdPkt

/-- A revocation record (`pgp_revoke_t`). -/
structure Revoke where
  uid : Nat
  code : Nat
  reason : List Nat

/-- The rich key (`pgp_key_t`): key packet, derived identifiers, userids,
subsigs, revocations, cached raw packets and the aggregate flag fields. -/
structure PgpKey where
  pkt : KeyPkt
  keyid : List Nat
  fp : List Nat
  grip : List Nat
  uids : List PgpUserid
  subsigs : List Subsig
  revokes : List Revoke
  revoked : Bool
  revocation : Revoke
  expiration : Nat
  key_flags : Nat
  uid0 : Nat
  uid0_set : Bool
  valid : Bool
  validated : Bool
  packets : List (PktTag × List Nat)

def pgp_key_is_secret (k : PgpKey) : Bool := is_secret_key_pkt k.pkt.tag
def pgp_key_is_primary_key (k : PgpKey) : Bool := is_primary_key_pkt k.pkt.tag
def pgp_key_get_userid_count (k : PgpKey) : Nat := k.uids.length
def pgp_key_get_userid (k : PgpKey) (idx : Nat) : Option PgpUserid := k.uids.get? idx

/-- `SIZE_MAX` of the 64-bit `size_t` used by the source. -/
def SIZE_T_MAX : Nat := 2 ^ 64 - 1

/-- `count - 1` computed in unsigned 64-bit `size_t` arithmetic. -/
def size_t_pred (n : Nat) : Nat := (n + SIZE_T_MAX) % 2 ^ 64

def strBytes (s : String) : List Nat := s.toList.map Char.toNat

/-- The `ss_rr_code_map` table (src/src/librekey/key_store_pgp.cpp:70) as a
lookup from revocation code to default reason string; the out-of-table
behaviour of `pgp_str_from_map` (not under src/) is modelled as the empty
string. -/
def ss_rr_code_map (code : Nat) : List Nat :=
  if code == 0x00 then strBytes "No reason specified"
  else if code == 0x01 then strBytes "Key is superseded"
  else if code == 0x02 then strBytes "Key material has been compromised"
  else if code == 0x03 then strBytes "Key is retired and no longer used"
  else if code == 0x20 then strBytes "User ID information is no longer valid"
  else []

/-- Mirror of `key->expiration = signature_get_key_expiration(...)` when the
subpacket is present (src/src/librekey/key_store_pgp.cpp:141). -/
def key_apply_expiration (key : PgpKey) (sig : Signature) : PgpKey :=
  match signature_get_key_expiration sig with
  | some e => { key with expiration := e }
  | none => key

/-- Mirror of the primary-uid handling
(src/src/librekey/key_store_pgp.cpp:147): record `count - 1` (in `size_t`)
as the primary userid index. -/
def key_apply_primary_uid (key : PgpKey) (sig : Signature) : PgpKey :=
  if signature_get_primary_uid sig then
    { key with uid0 := size_t_pred (pgp_key_get_userid_count key), uid0_set := true }
  else key

/-- Mirror of the key-flags mirroring up to the key
(src/src/librekey/key_store_pgp.cpp:167). -/
def key_apply_key_flags (key : PgpKey) (sig : Signature) : PgpKey :=
  match signature_get_key_flags sig with
  | some f => { key with key_flags := f }
  | none => key

/-- Mirror of the revocation-reason handling
(src/src/librekey/key_store_pgp.cpp:181): a whole-key revocation when the
key has no userids yet, else a userid revocation on index `count - 1`; an
empty reason text is replaced by the code map default. -/
def key_apply_revocation (key : PgpKey) (sig : Signature) : PgpKey :=
  match signature_get_revocation_reason sig with
  | some (code, text) =>
    let reason := if text.length == 0 then ss_rr_code_map code else text
    if pgp_key_get_userid_count key == 0 then
      { key with revoked := true
                 revocation := ⟨key.revocation.uid, code, reason⟩ }
    else
      let rv : Revoke := ⟨size_t_pred (pgp_key_get_userid_count key), code, reason⟩
      { key with revokes := key.revokes ++ [rv] }
  | none => key

/-- `rnp_key_add_signature` (src/src/librekey/key_store_pgp.cpp:119).  The
signature serializer for the rawpacket cache is injected; allocation
failures are not modelled. -/
def rnp_key_add_signature (serSig : Signature → List Nat) (key : PgpKey)
    (sig : Signature) : PgpKey :=
  let key0 := { key with packets := key.packets ++ [(PktTag.signature, serSig sig)] }
  let uidIdx := size_t_pred (pgp_key_get_userid_count key0)
  let subsig : Subsig :=
    { uid := uidIdx
      sig := sig
      trustlevel := match signature_get_trust sig with
        | some (l, _) => l
        | none => 0
      trustamount := match signature_get_trust sig with
        | some (_, a) => a
        | none => 0
      key_flags := match signature_get_key_flags sig with
        | some f => f
        | none => 0
      prefs :=
        { symm_algs := (signature_get_preferred_symm_algs sig).getD []
          hash_algs := (signature_get_preferred_hash_algs sig).getD []
          z_algs := (signature_get_preferred_z_algs sig).getD []
          ks_prefs := match signature_get_key_server_prefs sig with
            | some v => [v]
            | none => []
          key_server := (signature_get_key_server sig).getD [] } }
  let key4 := key_apply_revocation
    (key_apply_key_flags (key_apply_primary_uid (key_apply_expiration key0 sig) sig) sig)
    sig
  { key4 with subsigs := key4.subsigs ++ [subsig] }

/-! The structural validator (spec section 4.10, src/unnamed/part_001). -/

/-- Outcome of the opaque signature-content check collaborator
(`pgp_signature_info_t.valid` / `.expired`). -/
structure SigCheck where
  valid : Bool
  expired : Bool

/-- Modelled from the spec: `fingerprint_equal` is a byte comparison. -/
def fingerprint_equal (a b : List Nat) : Bool := a == b

/-- `pgp_sig_is_certification` (src/unnamed/part_001:1659). -/
def pgp_sig_is_certification (s : Subsig) : Bool :=
  let t := signature_get_type s.sig
  t == SigType.certCasual || t == SigType.certGeneric ||
  t == SigType.certPersona || t == SigType.certPositive

/-- `pgp_sig_is_self_signature` (src/unnamed/part_001:1667). -/
def pgp_sig_is_self_signature (key : PgpKey) (s : Subsig) : Bool :=
  if !pgp_key_is_primary_key key || !pgp_sig_is_certification s then false
  else
    match signature_get_keyfp s.sig with
    | some fp => fingerprint_equal key.fp fp
    | none =>
      match signature_get_keyid s.sig with
      | some kid => key.keyid == kid
      | none => false

/-- `pgp_sig_is_key_revocation` (src/unnamed/part_001:1691). -/
def pgp_sig_is_key_revocation (key : PgpKey) (s : Subsig) : Bool :=
  pgp_key_is_primary_key key && signature_get_type s.sig == SigType.revKey

/-- The subsig loop of `pgp_key_validate_primary` (src/unnamed/part_001:1716)
with the `has_cert` accumulator made explicit.  `certCheck` and `directCheck`
are the opaque content-verification collaborators
(`signature_check_certification` / `signature_check_direct`). -/
def validate_primary_loop (certCheck : Signature → KeyPkt → UserIdPkt → SigCheck)
    (directCheck : Signature → KeyPkt → SigCheck) (key : PgpKey) :
    List Subsig → Bool → Bool
  | [], has_cert => has_cert || pgp_key_is_secret key
  | s :: rest, has_cert =>
    if pgp_sig_is_self_signature key s && !has_cert then
      match pgp_key_get_userid key s.uid with
      | some u =>
        let c := certCheck s.sig key.pkt u.pkt
        validate_primary_loop certCheck directCheck key rest (c.valid && !c.expired)
      | none => validate_primary_loop certCheck directCheck key rest has_cert
    else if pgp_sig_is_key_revocation key s && (directCheck s.sig key.pkt).valid then
      false
    else validate_primary_loop certCheck directCheck key rest has_cert

/-- `pgp_key_validate_primary` (src/unnamed/part_001:1709): the final value
of `key->valid` (the source function itself always returns success). -/
def pgp_key_validate_primary (certCheck : Signature → KeyPkt → UserIdPkt → SigCheck)
    (directCheck : Signature → KeyPkt → SigCheck) (key : PgpKey) : Bool :=
  validate_primary_loop certCheck directCheck key key.subsigs false

/-! The write path of a key sequence (src/unnamed/part_000:938). -/

/-- Armor block kinds (PGP_ARMORED_*). -/
inductive ArmorKind where
  | publicKey
  | secretKey
deriving DecidableEq, Repr

/-- One element written to the output stream; packet serialization itself is
the codec collaborator, so packets are kept structured. -/
inductive OutToken where
  | armorBegin : ArmorKind → OutToken
  | keyTk : KeyPkt → OutToken
  | uidTk : UserIdPkt → OutToken
  | sigTk : Signature → OutToken
  | armorEnd : ArmorKind → OutToken

/-- The per-key body emitted by `write_pgp_keys`: key packet, direct-key
signatures, userids with their signatures, subkeys with their signatures. -/
def writeKeyTokens (k : TransferableKey) : List OutToken :=
  OutToken.keyTk k.key :: k.signatures.map OutToken.sigTk ++
  k.userids.flatMap (fun u => OutToken.uidTk u.uid :: u.signatures.map OutToken.sigTk) ++
  k.subkeys.flatMap (fun s => OutToken.keyTk s.subkey :: s.signatures.map OutToken.sigTk)

/-- `write_pgp_keys` (src/unnamed/part_000:938): the emitted token stream,
with the armor framing when requested. -/
def write_pgp_keys (keys : List TransferableKey) (armor : Bool) : List OutToken :=
  let body := keys.flatMap writeKeyTokens
  if armor then
    let msgtype :=
      match keys.head? with
      | some fkey =>
        if is_secret_key_pkt fkey.key.tag then ArmorKind.secretKey
        else ArmorKind.publicKey
      | none => ArmorKind.publicKey
    OutToken.armorBegin msgtype :: body ++ [OutToken.armorEnd msgtype]
  else body

/-! Claim-side helper predicates. -/

/-- Every signature of `sigs` is byte-equal to some signature of `d`. -/
def sigs_subsumed (sigs d : List Signature) : Prop :=
  ∀ s ∈ sigs, list_has_signature d s = true

/-- The first userid of the list whose packet is byte-equal to `u`'s already
carries every signature of `u`. -/
def uidHolds : List TransferableUserId → TransferableUserId → Prop
  | [], _ => False
  | d :: rest, u =>
    (userid_pkt_equal d.uid u.uid = true ∧ sigs_subsumed u.signatures d.signatures) ∨
    (userid_pkt_equal d.uid u.uid = false ∧ uidHolds rest u)

/-- The first subkey of the list whose public half matches `u`'s already
carries every signature of `u`. -/
def skeyHolds : List TransferableSubkey → TransferableSubkey → Prop
  | [], _ => False
  | d :: rest, u =>
    (key_pkt_equal d.subkey u.subkey true = true ∧
      sigs_subsumed u.signatures d.signatures) ∨
    (key_pkt_equal d.subkey u.subkey true = false ∧ skeyHolds rest u)

/-- Replace exactly the secret MPI fields and the `secret` flag of a key
material, leaving the public fields alone. -/
def set_secret_material (m : KeyMaterial) (secret : Bool)
    (d p q u x egx ecx : Mpi) : KeyMaterial :=
  { m with
    secret := secret
    rsa_d := d
    rsa_p := p
    rsa_q := q
    rsa_u := u
    dsa_x := x
    eg_x := egx
    ec_x := ecx }

/-- Replace the whole secret layer of a key packet (tag variant, secret MPI
fields, protection descriptor, stored blob), leaving the public half alone. -/
def set_secret_layer (k : KeyPkt) (tag : PktTag) (secret : Bool)
    (d p q u x egx ecx : Mpi) (prot : SecProtection) (blob : List Nat) : KeyPkt :=
  { k with tag := tag
           material := set_secret_material k.material secret d p q u x egx ecx
           sec_protection := prot
           sec_data := blob }

/-- The plaintext that `decrypt_secret_key` subjects to the integrity check:
the stored blob when the key is not encrypted, otherwise the CFB decryption
of the blob (with the v3 per-MPI handling); `none` when the call fails before
any integrity check is reached. -/
def secret_plaintext (cfb : CfbOracle)
    (s2kDerive : S2K → String → Nat → Option (List Nat))
    (key : KeyPkt) (password : Option String) : Option (List Nat) :=
  if !is_secret_key_pkt key.tag then none
  else if key.sec_protection.s2k.usage == S2KUsage.none then some key.sec_data
  else
    match password with
    | none => none
    | some pw =>
      if key.sec_protection.cipher_mode != CipherMode.cfb then none
      else
        let keysize := pgp_key_size key.sec_protection.symm_alg
        if keysize == 0 then none
        else
          match s2kDerive key.sec_protection.s2k pw keysize with
          | none => none
          | some keybuf =>
            let st0 := cfb.start key.sec_protection.symm_alg keybuf
              key.sec_protection.iv
            if key.version == 3 then
              if !is_rsa_key_alg key.alg then none
              else
                match decrypt_secret_key_v3 cfb
                    (pgp_block_size key.sec_protection.symm_alg) st0 key.sec_data with
                | Except.error _ => none
                | Except.ok dec => some dec
            else if key.version == 4 then
              some (cfbRunChunk cfb.decByte st0 key.sec_data).1
            else none

/-- The integrity check over a decrypted plaintext fails: for
EncryptedAndHashed usage the trailing 20-byte SHA-1 over the preceding
plaintext does not match, otherwise the trailing 16-bit sum16 over the
plaintext MPI region does not match. -/
def integrity_mismatch (sha1 : List Nat → List Nat) (usage : S2KUsage)
    (pt : List Nat) : Bool :=
  match usage with
  | S2KUsage.encryptedAndHashed =>
    let len := pt.length - 20
    let hval := sha1 (pt.take len)
    hval.length == 20 && hval != bytes20_at pt len
  | _ => sum16 (pt.take (pt.length - 2)) != read_uint16 pt (pt.length - 2)

/-- The secret MPI fields of the material (those of its algorithm) are
zeroed. -/
def secret_fields_cleared (m : KeyMaterial) : Bool :=
  match m.alg with
  | PubKeyAlg.rsa | PubKeyAlg.rsaEncryptOnly | PubKeyAlg.rsaSignOnly =>
    m.rsa_d == ([] : Mpi) && m.rsa_p == ([] : Mpi) &&
    m.rsa_q == ([] : Mpi) && m.rsa_u == ([] : Mpi)
  | PubKeyAlg.dsa => m.dsa_x == ([] : Mpi)
  | PubKeyAlg.elgamal | PubKeyAlg.elgamalEncryptOrSign => m.eg_x == ([] : Mpi)
  | PubKeyAlg.ecdsa | PubKeyAlg.eddsa | PubKeyAlg.sm2 | PubKeyAlg.ecdh =>
    m.ec_x == ([] : Mpi)

/-! Concrete example data used by counterexamples and witnesses. -/

def km0 : KeyMaterial :=
  { alg := PubKeyAlg.rsa, secret := false, rsa_n := [1], rsa_e := [1],
    rsa_d := [], rsa_p := [], rsa_q := [], rsa_u := [],
    dsa_p := [], dsa_q := [], dsa_g := [], dsa_y := [], dsa_x := [],
    eg_p := [], eg_g := [], eg_y := [], eg_x := [],
    ec_curve := Curve.p256, ec_p := [], ec_x := [] }

def kmRsaSecret : KeyMaterial :=
  { km0 with secret := true, rsa_d := [1], rsa_p := [1], rsa_q := [1], rsa_u := [1] }

def kmDsa256 : KeyMaterial :=
  { km0 with
    alg := PubKeyAlg.dsa
    dsa_p := [1]
    dsa_q := 128 :: List.replicate 31 0
    dsa_g := [1]
    dsa_y := [1] }

def s2kNone : S2K := ⟨S2KUsage.none, S2KSpec.simple, HashAlg.sha1, [], 0⟩
def s2kEnc : S2K := ⟨S2KUsage.encrypted, S2KSpec.simple, HashAlg.sha1, [], 0⟩
def protNone : SecProtection := ⟨s2kNone, SymmAlg.aes128, CipherMode.cfb, []⟩
def protEnc : SecProtection := ⟨s2kEnc, SymmAlg.aes128, CipherMode.cfb, []⟩

def pubRsaPkt : KeyPkt := ⟨PktTag.publicKey, 4, 100, 0, PubKeyAlg.rsa, km0, protNone, []⟩
def dsa256Pkt : KeyPkt :=
  ⟨PktTag.publicKey, 4, 100, 0, PubKeyAlg.dsa, kmDsa256, protNone, []⟩
def secRsaV3 : KeyPkt :=
  ⟨PktTag.secretKey, 3, 100, 0, PubKeyAlg.rsa, kmRsaSecret, protNone, []⟩
def secRsaV3Enc : KeyPkt :=
  ⟨PktTag.secretKey, 3, 100, 0, PubKeyAlg.rsa, kmRsaSecret, protEnc, []⟩
def secRsaV4Plain : KeyPkt :=
  ⟨PktTag.secretKey, 4, 100, 0, PubKeyAlg.rsa, kmRsaSecret, protNone, []⟩
def secRsaV4Enc : KeyPkt :=
  ⟨PktTag.secretKey, 4, 100, 0, PubKeyAlg.rsa, kmRsaSecret, protEnc, []⟩

/-- A CFB collaborator instance that passes bytes through unchanged. -/
def cfbId : CfbOracle :=
  ⟨fun _ _ _ => [], fun st c => (c, st), fun st c => (c, st), fun st _ => st⟩

def sha1z : List Nat → List Nat := fun _ => List.replicate 20 0
def s2kZero : S2K → String → Nat → Option (List Nat) :=
  fun _ _ n => some (List.replicate n 0)
def rngZero : Nat → List Nat := fun n => List.replicate n 0

def sigA : Signature :=
  Signature.mk 4 SigType.certPositive PubKeyAlg.rsa HashAlg.sha256
    [SubPkt.creation 1] [] none
def sigB : Signature :=
  Signature.mk 4 SigType.certPositive PubKeyAlg.rsa HashAlg.sha256
    [SubPkt.creation 2] [] none

def uidPktA : UserIdPkt := ⟨PktTag.userId, [65]⟩
def uidPktB : UserIdPkt := ⟨PktTag.userId, [66]⟩

/-- A transferable key whose two userids carry byte-equal userid packets but
different signatures: a legal parse result (the grammar does not forbid a
repeated userid packet). -/
def Kdup : TransferableKey :=
  ⟨pubRsaPkt, [], [⟨uidPktA, [sigA]⟩, ⟨uidPktA, [sigB]⟩], []⟩

/-- A transferable key with pairwise distinct userid packets. -/
def Kok : TransferableKey :=
  ⟨pubRsaPkt, [sigA], [⟨uidPktA, [sigA]⟩, ⟨uidPktB, [sigB]⟩], []⟩

def tsub0 : TransferableSubkey :=
  ⟨⟨PktTag.publicSubkey, 4, 200, 0, PubKeyAlg.rsa, km0, protNone, []⟩, []⟩

/-- The same subkey as `tsub0` with a completely different secret layer and
one signature. -/
def tsubSec : TransferableSubkey :=
  ⟨set_secret_layer ⟨PktTag.publicSubkey, 4, 200, 0, PubKeyAlg.rsa, km0, protNone, []⟩
      PktTag.secretSubkey true [1] [1] [1] [1] [] [] [] protEnc [5],
    [sigB]⟩
def kid0 : KeyPkt → List Nat := fun k => [k.creation_time % 256]
def fp0 : KeyPkt → List Nat := fun k => [k.creation_time % 256, 0]
def so0 : List HashInput → KeyMaterial → List Nat := fun _ _ => [7]
def bind0 : SelfsigBinding := ⟨0, 0⟩

def certOk : Signature → KeyPkt → UserIdPkt → SigCheck := fun _ _ _ => ⟨true, false⟩
def dirOk : Signature → KeyPkt → SigCheck := fun _ _ => ⟨true, false⟩

/-- A self-certification subsig over userid 0 whose issuer fingerprint
matches the key below. -/
def selfCertSig : Signature :=
  Signature.mk 4 SigType.certPositive PubKeyAlg.rsa HashAlg.sha256
    [SubPkt.issuerFp [9]] [] none

def pgpK0 : PgpKey :=
  { pkt := pubRsaPkt
    keyid := [8]
    fp := [9]
    grip := [10]
    uids := [⟨[65], uidPktA⟩]
    subsigs := [⟨0, selfCertSig, 0, 0, 0, emptyPrefs⟩]
    revokes := []
    revoked := false
    revocation := ⟨0, 0, []⟩
    expiration := 0
    key_flags := 0
    uid0 := 0
    uid0_set := false
    valid := false
    validated := false
    packets := [] }

/-! Helper lemmas. -/

mutual

theorem sigFullEq_refl : ∀ s : Signature, sigFullEq s s = true
  | Signature.mk v t p h hs us m => by
    simp [sigFullEq, subPktListEq_refl hs, subPktListEq_refl us]

theorem subPktEq_refl : ∀ p : SubPkt, subPktEq p p = true
  | SubPkt.creation a => by simp [subPktEq]
  | SubPkt.keyExpiration a => by simp [subPktEq]
  | SubPkt.keyFlags a => by simp [subPktEq]
  | SubPkt.issuerFp a => by simp [subPktEq]
  | SubPkt.issuerKeyId a => by simp [subPktEq]
  | SubPkt.primaryUid a => by simp [subPktEq]
  | SubPkt.prefSymm a => by simp [subPktEq]
  | SubPkt.prefHash a => by simp [subPktEq]
  | SubPkt.prefZ a => by simp [subPktEq]
  | SubPkt.ksPrefs a => by simp [subPktEq]
  | SubPkt.keyServer a => by simp [subPktEq]
  | SubPkt.revocationReason a c => by simp [subPktEq]
  | SubPkt.trustPkt a c => by simp [subPktEq]
  | SubPkt.embedded s => by simp [subPktEq, sigFullEq_refl s]

theorem subPktListEq_refl : ∀ l : List SubPkt, subPktListEq l l = true
  | [] => by simp [subPktListEq]
  | a :: as => by simp [subPktListEq, subPktEq_refl a, subPktListEq_refl as]

end

theorem signature_pkt_equal_refl (s : Signature) : signature_pkt_equal s s = true := by
  simp [signature_pkt_equal, subPktListEq_refl]

theorem userid_pkt_equal_refl (u : UserIdPkt) : userid_pkt_equal u u = true := by
  simp [userid_pkt_equal]

theorem key_pkt_equal_refl (k : KeyPkt) (b : Bool) : key_pkt_equal k k b = true := by
  cases b <;> simp [key_pkt_equal]

/-! C7. -/

/-- C7: `pgp_hash_adjust_alg_to_key` returns the requested hash unchanged for
every algorithm other than DSA and ECDSA; for DSA and ECDSA it returns the
minimum hash (determined from the DSA Q size, respectively the curve)
whenever the requested hash's digest length is smaller than the minimum's,
and the requested hash otherwise; in particular, for DSA with a 256-bit Q,
requested SHA-1 is rewritten to SHA-256 while requested SHA-512 is
preserved. -/
theorem hash_adjust_matches_spec :
    (∀ (hash : HashAlg) (pubkey : KeyPkt),
      pubkey.alg ≠ PubKeyAlg.dsa → pubkey.alg ≠ PubKeyAlg.ecdsa →
      pgp_hash_adjust_alg_to_key hash pubkey = hash) ∧
    (∀ (hash : HashAlg) (pubkey : KeyPkt), pubkey.alg = PubKeyAlg.dsa →
      pgp_hash_adjust_alg_to_key hash pubkey =
        (if pgp_digest_length hash <
            pgp_digest_length (dsa_get_min_hash (mpi_bits pubkey.material.dsa_q))
         then dsa_get_min_hash (mpi_bits pubkey.material.dsa_q) else hash)) ∧
    (∀ (hash : HashAlg) (pubkey : KeyPkt), pubkey.alg = PubKeyAlg.ecdsa →
      pgp_hash_adjust_alg_to_key hash pubkey =
        (if pgp_digest_length hash <
            pgp_digest_length (ecdsa_get_min_hash pubkey.material.ec_curve)
         then ecdsa_get_min_hash pubkey.material.ec_curve else hash)) ∧
    (∀ pubkey : KeyPkt, pubkey.alg = PubKeyAlg.dsa →
      mpi_bits pubkey.material.dsa_q = 256 →
      pgp_hash_adjust_alg_to_key HashAlg.sha1 pubkey = HashAlg.sha256 ∧
      pgp_hash_adjust_alg_to_key HashAlg.sha512 pubkey = HashAlg.sha512) := by
  refine ⟨?_, ?_, ?_, ?_⟩
  · intro hash pubkey h1 h2
    simp [pgp_hash_adjust_alg_to_key, h1, h2]
  · intro hash pubkey h
    simp [pgp_hash_adjust_alg_to_key, h]
  · intro hash pubkey h
    simp [pgp_hash_adjust_alg_to_key, h]
  · intro pubkey h hq
    constructor
    · simp [pgp_hash_adjust_alg_to_key, h, hq, dsa_get_min_hash, pgp_digest_length]
    · simp [pgp_hash_adjust_alg_to_key, h, hq, dsa_get_min_hash, pgp_digest_length]

/-- C7 witness: the four parts of the statement evaluated on concrete keys
(an RSA key, and a DSA key with a 256-bit Q). -/
theorem hash_adjust_matches_spec_witness :
    pgp_hash_adjust_alg_to_key HashAlg.md5 pubRsaPkt = HashAlg.md5 ∧
    pgp_hash_adjust_alg_to_key HashAlg.sha1 dsa256Pkt = HashAlg.sha256 ∧
    pgp_hash_adjust_alg_to_key HashAlg.sha512 dsa256Pkt = HashAlg.sha512 := by
  refine ⟨?_, ?_, ?_⟩
  · exact hash_adjust_matches_spec.1 HashAlg.md5 pubRsaPkt (by decide) (by decide)
  · exact (hash_adjust_matches_spec.2.2.2 dsa256Pkt (by decide) (by decide)).1
  · exact (hash_adjust_matches_spec.2.2.2 dsa256Pkt (by decide) (by decide)).2

/-! C9. -/

/-- C9: when `write_pgp_keys` is called with armor enabled, the armor block
kind is the secret-key kind if and only if the first primary key's packet tag
is a secret-key tag, and the public-key kind otherwise, including for an
empty sequence. -/
theorem write_keys_armor_kind (keys : List TransferableKey) :
    ∃ kind, (write_pgp_keys keys true).head? = some (OutToken.armorBegin kind) ∧
      (kind = ArmorKind.secretKey ↔
        ∃ fkey, keys.head? = some fkey ∧ is_secret_key_pkt fkey.key.tag = true) ∧
      (kind = ArmorKind.publicKey ↔
        ¬∃ fkey, keys.head? = some fkey ∧ is_secret_key_pkt fkey.key.tag = true) := by
  cases keys with
  | nil => exact ⟨ArmorKind.publicKey, by simp [write_pgp_keys], by simp, by simp⟩
  | cons k rest =>
    by_cases hs : is_secret_key_pkt k.key.tag = true
    · refine ⟨ArmorKind.secretKey, ?_, ?_, ?_⟩
      · simp [write_pgp_keys, hs]
      · simp [hs]
      · simp [hs]
    · refine ⟨ArmorKind.publicKey, ?_, ?_, ?_⟩
      · simp [write_pgp_keys, hs]
      · simp [hs]
      · simp [hs]

/-! C10. -/

/-- C10: for every signature added to a rich key via `rnp_key_add_signature`,
the recorded uid index of the new subsig equals the key's current userid
count minus one, computed in unsigned 64-bit `size_t` arithmetic; in
particular, when the key has no userids yet, the index wraps to `SIZE_MAX`
rather than a sentinel meaning "no userid". -/
theorem add_signature_uid_index (serSig : Signature → List Nat) (key : PgpKey)
    (sig : Signature) :
    ((rnp_key_add_signature serSig key sig).subsigs.getLast?.map Subsig.uid =
      some ((pgp_key_get_userid_count key + (2 ^ 64 - 1)) % 2 ^ 64)) ∧
    ((rnp_key_add_signature serSig { key with uids := [] } sig).subsigs.getLast?.map
        Subsig.uid = some (2 ^ 64 - 1)) := by
  constructor
  · simp [rnp_key_add_signature, List.getLast?_concat, size_t_pred, SIZE_T_MAX,
      pgp_key_get_userid_count]
  · have h : (0 + (2 ^ 64 - 1)) % 2 ^ 64 = 2 ^ 64 - 1 := by norm_num
    simp [rnp_key_add_signature, List.getLast?_concat, size_t_pred, SIZE_T_MAX,
      pgp_key_get_userid_count, h]

/-! C8. -/

theorem public_material_set_secret (m : KeyMaterial) (s : Bool)
    (d p q u x egx ecx : Mpi) :
    public_material (set_secret_material m s d p q u x egx ecx) =
      public_material m := by
  cases hm : m.alg <;> simp [public_material, set_secret_material, hm]

/-- C8: `transferable_subkey_merge` returns BadParameters whenever the two
subkey packets differ in their public half, and otherwise merges the
source's signatures into the destination; the secret fields of the two
packets are not required to match (the public-half comparison is blind to
the whole secret layer). -/
theorem subkey_merge_matches_spec :
    (∀ dst src : TransferableSubkey,
      (transferable_subkey_merge dst src = Except.error rnpResult.badParameters ↔
        key_pkt_equal dst.subkey src.subkey true = false)) ∧
    (∀ dst src : TransferableSubkey,
      key_pkt_equal dst.subkey src.subkey true = true →
      transferable_subkey_merge dst src = Except.ok
        { dst with signatures := merge_signatures dst.signatures src.signatures }) ∧
    (∀ (a b : KeyPkt) (t1 t2 : PktTag) (s1 s2 : Bool)
       (d1 p1 q1 u1 x1 e1 c1 d2 p2 q2 u2 x2 e2 c2 : Mpi)
       (pr1 pr2 : SecProtection) (bl1 bl2 : List Nat),
      key_pkt_equal (set_secret_layer a t1 s1 d1 p1 q1 u1 x1 e1 c1 pr1 bl1)
          (set_secret_layer b t2 s2 d2 p2 q2 u2 x2 e2 c2 pr2 bl2) true =
        key_pkt_equal a b true) := by
  refine ⟨?_, ?_, ?_⟩
  · intro dst src
    by_cases h : key_pkt_equal dst.subkey src.subkey true = true
    · simp [transferable_subkey_merge, h]
    · simp only [Bool.not_eq_true] at h
      simp [transferable_subkey_merge, h]
  · intro dst src h
    simp [transferable_subkey_merge, h]
  · intro a b t1 t2 s1 s2 d1 p1 q1 u1 x1 e1 c1 d2 p2 q2 u2 x2 e2 c2 pr1 pr2 bl1 bl2
    simp [key_pkt_equal, set_secret_layer, public_material_set_secret]

/-- C8 witness: a public subkey and a variant of it with a different secret
layer merge successfully (their public halves match). -/
theorem subkey_merge_matches_spec_witness :
    key_pkt_equal tsub0.subkey tsubSec.subkey true = true ∧
    transferable_subkey_merge tsub0 tsubSec = Except.ok
      { tsub0 with signatures := merge_signatures tsub0.signatures tsubSec.signatures } :=
  ⟨by decide, subkey_merge_matches_spec.2.1 tsub0 tsubSec (by decide)⟩

/-! C5. -/

theorem write_mpis_isSome (sha1 : List Nat → List Nat) (key : KeyPkt)
    (ha : key.alg ≠ PubKeyAlg.elgamalEncryptOrSign)
    (hsha : ∀ x, (sha1 x).length = 20) :
    (write_secret_key_mpis sha1 key).isSome := by
  unfold write_secret_key_mpis
  cases halg : key.alg <;> simp_all [hsha] <;> split <;> simp

/-- C5 counterexample: a v3 secret key whose s2k usage is None is not
refused: `encrypt_secret_key` returns success and rewrites the secret blob,
contradicting the claim that every key with version below 4 gets
BadParameters with the blob untouched. -/
theorem encrypt_v3_counterexample :
    (encrypt_secret_key cfbId sha1z s2kZero rngZero secRsaV3 "pw").1 =
      rnpResult.success ∧
    (encrypt_secret_key cfbId sha1z s2kZero rngZero secRsaV3 "pw").2.sec_data ≠
      secRsaV3.sec_data := by
  decide

/-- Shape of every outcome of `encrypt_secret_key` on the protected path
(s2k usage not None): BadParameters without touching the blob, OutOfMemory
when the MPI stream cannot be written, or success after the v4 check with the
material scrubbed. -/
theorem encrypt_protected_shape (cfb : CfbOracle) (sha1 : List Nat → List Nat)
    (s2kDerive : S2K → String → Nat → Option (List Nat)) (rng : Nat → List Nat)
    (key : KeyPkt) (password : String)
    (hu : key.sec_protection.s2k.usage ≠ S2KUsage.none) :
    (∃ k, encrypt_secret_key cfb sha1 s2kDerive rng key password =
        (rnpResult.badParameters, k) ∧ k.sec_data = key.sec_data) ∨
    (encrypt_secret_key cfb sha1 s2kDerive rng key password =
        (rnpResult.outOfMemory, key) ∧ write_secret_key_mpis sha1 key = none) ∨
    (∃ k, encrypt_secret_key cfb sha1 s2kDerive rng key password =
        (rnpResult.success, k) ∧
      k.material = forget_secret_key_fields key.material ∧
      4 ≤ key.version ∧ key.material.secret = true) := by
  unfold encrypt_secret_key
  by_cases h1 : (!is_secret_key_pkt key.tag || !key.material.secret) = true
  · left; exact ⟨key, by simp [h1], rfl⟩
  · have h1f : (!is_secret_key_pkt key.tag || !key.material.secret) = false := by
      simp only [Bool.not_eq_true] at h1; exact h1
    have hsec : key.material.secret = true := by
      revert h1f
      cases key.material.secret <;> cases is_secret_key_pkt key.tag <;> simp
    by_cases h2 : (key.sec_protection.s2k.usage != S2KUsage.none &&
        key.sec_protection.cipher_mode != CipherMode.cfb) = true
    · left; exact ⟨key, by simp [h1f, h2], rfl⟩
    · have h2f : (key.sec_protection.s2k.usage != S2KUsage.none &&
          key.sec_protection.cipher_mode != CipherMode.cfb) = false := by
        simp only [Bool.not_eq_true] at h2; exact h2
      have hun : (key.sec_protection.s2k.usage == S2KUsage.none) = false := by
        simp [hu]
      cases hw : write_secret_key_mpis sha1 key with
      | none =>
        right; left
        constructor
        · simp [h1f, h2f, hw]
        · rfl
      | some body =>
        by_cases h4 : (pgp_key_size key.sec_protection.symm_alg == 0 ||
            pgp_block_size key.sec_protection.symm_alg == 0) = true
        · left; exact ⟨key, by simp [h1f, h2f, hw, hun, h4], rfl⟩
        · have h4f : (pgp_key_size key.sec_protection.symm_alg == 0 ||
              pgp_block_size key.sec_protection.symm_alg == 0) = false := by
            simp only [Bool.not_eq_true] at h4; exact h4
          cases hd : s2kDerive (protection_fill_random key.sec_protection rng).s2k
              password (pgp_key_size key.sec_protection.symm_alg) with
          | none =>
            left
            refine ⟨{ key with
              sec_protection := protection_fill_random key.sec_protection rng },
              ?_, rfl⟩
            simp only [h1f, h2f, hw, hun, h4f]
            simp [hd]
          | some keybuf =>
            by_cases hv : key.version < 4
            · left
              refine ⟨{ key with
                sec_protection := protection_fill_random key.sec_protection rng },
                ?_, rfl⟩
              simp only [h1f, h2f, hw, hun, h4f]
              simp [hd, hv]
            · right; right
              refine ⟨{ key with
                material := forget_secret_key_fields key.material
                sec_protection := protection_fill_random key.sec_protection rng
                sec_data := (cfbRunChunk cfb.encByte
                  (cfb.start (protection_fill_random key.sec_protection rng).symm_alg
                    keybuf (protection_fill_random key.sec_protection rng).iv)
                  body).1 }, ?_, rfl, by omega, hsec⟩
              simp only [h1f, h2f, hw, hun, h4f]
              simp [hd, hv]

/-- C5 (amended): for every secret key packet with version below 4 whose s2k
usage requests protection (usage is not None) and whose algorithm has a
writable secret MPI stream, `encrypt_secret_key` returns BadParameters and
does not rewrite the secret blob. -/
theorem encrypt_refuses_v3 (cfb : CfbOracle) (sha1 : List Nat → List Nat)
    (s2kDerive : S2K → String → Nat → Option (List Nat)) (rng : Nat → List Nat)
    (key : KeyPkt) (password : String)
    (hv : key.version < 4)
    (hu : key.sec_protection.s2k.usage ≠ S2KUsage.none)
    (ha : key.alg ≠ PubKeyAlg.elgamalEncryptOrSign)
    (hsha : ∀ x, (sha1 x).length = 20) :
    (encrypt_secret_key cfb sha1 s2kDerive rng key password).1 =
      rnpResult.badParameters ∧
    (encrypt_secret_key cfb sha1 s2kDerive rng key password).2.sec_data =
      key.sec_data := by
  rcases encrypt_protected_shape cfb sha1 s2kDerive rng key password hu with
    ⟨k, hk, hsd⟩ | ⟨_, hw⟩ | ⟨k, _, _, hver, _⟩
  · rw [hk]; exact ⟨rfl, hsd⟩
  · have := write_mpis_isSome sha1 key ha hsha
    rw [hw] at this; simp at this
  · omega

/-- C5 witness: a protected (usage Encrypted) v3 RSA secret key is refused
with BadParameters and its blob is untouched. -/
theorem encrypt_refuses_v3_witness :
    secRsaV3Enc.version < 4 ∧
    (encrypt_secret_key cfbId sha1z s2kZero rngZero secRsaV3Enc "pw").1 =
      rnpResult.badParameters ∧
    (encrypt_secret_key cfbId sha1z s2kZero rngZero secRsaV3Enc "pw").2.sec_data =
      secRsaV3Enc.sec_data := by
  refine ⟨by decide, ?_⟩
  exact encrypt_refuses_v3 cfbId sha1z s2kZero rngZero secRsaV3Enc "pw"
    (by decide) (by decide) (by decide) (fun x => by simp [sha1z])

/-! C6. -/

theorem forget_clears (m : KeyMaterial) (h : m.secret = true) :
    (forget_secret_key_fields m).secret = false ∧
    secret_fields_cleared (forget_secret_key_fields m) = true := by
  unfold forget_secret_key_fields
  cases halg : m.alg <;> simp_all [secret_fields_cleared]

/-- C6 counterexample: `encrypt_secret_key` on a secret key whose s2k usage
is None returns success without scrubbing: the secret MPI fields stay in
place and `secret` stays set, contradicting the claim that every successful
call scrubs them. -/
theorem encrypt_scrub_counterexample :
    (encrypt_secret_key cfbId sha1z s2kZero rngZero secRsaV4Plain "pw").1 =
      rnpResult.success ∧
    (encrypt_secret_key cfbId sha1z s2kZero rngZero secRsaV4Plain "pw").2.material.secret =
      true := by
  decide

/-- C6 (amended): for every call of `encrypt_secret_key` that returns
success and actually encrypts (s2k usage is not None), the cleartext secret
MPI fields of the key material are scrubbed before returning:
`forget_secret_key_fields` zeroes them and clears the secret-present flag. -/
theorem encrypt_success_scrubs (cfb : CfbOracle) (sha1 : List Nat → List Nat)
    (s2kDerive : S2K → String → Nat → Option (List Nat)) (rng : Nat → List Nat)
    (key : KeyPkt) (password : String)
    (hu : key.sec_protection.s2k.usage ≠ S2KUsage.none)
    (hs : (encrypt_secret_key cfb sha1 s2kDerive rng key password).1 =
      rnpResult.success) :
    (encrypt_secret_key cfb sha1 s2kDerive rng key password).2.material.secret =
      false ∧
    secret_fields_cleared
      (encrypt_secret_key cfb sha1 s2kDerive rng key password).2.material = true := by
  rcases encrypt_protected_shape cfb sha1 s2kDerive rng key password hu with
    ⟨k, hk, _⟩ | ⟨hk, _⟩ | ⟨k, hk, hm, _, hsec⟩
  · rw [hk] at hs; simp at hs
  · rw [hk] at hs; simp at hs
  · rw [hk]
    simp only [hm]
    exact forget_clears key.material hsec

/-- C6 witness: a protected v4 RSA secret key encrypts successfully and the
returned material is scrubbed. -/
theorem encrypt_success_scrubs_witness :
    secRsaV4Enc.sec_protection.s2k.usage ≠ S2KUsage.none ∧
    (encrypt_secret_key cfbId sha1z s2kZero rngZero secRsaV4Enc "pw").1 =
      rnpResult.success ∧
    ((encrypt_secret_key cfbId sha1z s2kZero rngZero secRsaV4Enc "pw").2.material.secret =
        false ∧
      secret_fields_cleared
        (encrypt_secret_key cfbId sha1z s2kZero rngZero secRsaV4Enc "pw").2.material =
        true) :=
  ⟨by decide, by decide,
    encrypt_success_scrubs cfbId sha1z s2kZero rngZero secRsaV4Enc "pw"
      (by decide) (by decide)⟩

/-! C1. -/

theorem self_sig_not_revocation (key : PgpKey) (s : Subsig)
    (h : pgp_sig_is_self_signature key s = true) :
    pgp_sig_is_key_revocation key s = false := by
  unfold pgp_sig_is_self_signature at h
  split at h
  · exact absurd h (by simp)
  · rename_i hg
    have hcert : pgp_sig_is_certification s = true := by
      revert hg
      cases pgp_sig_is_certification s <;>
        cases pgp_key_is_primary_key key <;> simp
    unfold pgp_sig_is_key_revocation
    unfold pgp_sig_is_certification at hcert
    cases ht : signature_get_type s.sig <;> simp_all

theorem validate_loop_spec (certCheck : Signature → KeyPkt → UserIdPkt → SigCheck)
    (directCheck : Signature → KeyPkt → SigCheck) (key : PgpKey) :
    ∀ (l : List Subsig) (b : Bool),
      validate_primary_loop certCheck directCheck key l b =
        (l.all (fun s => !(pgp_sig_is_key_revocation key s &&
            (directCheck s.sig key.pkt).valid)) &&
          (b ||
            l.any (fun s => pgp_sig_is_self_signature key s &&
              (match pgp_key_get_userid key s.uid with
               | some u => (certCheck s.sig key.pkt u.pkt).valid &&
                   !(certCheck s.sig key.pkt u.pkt).expired
               | none => false)) ||
            pgp_key_is_secret key)) := by
  intro l
  induction l with
  | nil => intro b; simp [validate_primary_loop]
  | cons s rest ih =>
    intro b
    simp only [validate_primary_loop]
    split
    · rename_i hc1
      have hs : pgp_sig_is_self_signature key s = true := by
        revert hc1; cases pgp_sig_is_self_signature key s <;> simp
      have hb : b = false := by
        revert hc1; cases b <;> simp
      have hrev := self_sig_not_revocation key s hs
      cases hu : pgp_key_get_userid key s.uid with
      | some u =>
        simp only [hu]
        rw [ih]
        simp only [List.all_cons, List.any_cons, hs, hb, hrev, hu]
        simp [Bool.or_assoc]
      | none =>
        simp only [hu]
        rw [ih]
        simp only [List.all_cons, List.any_cons, hs, hb, hrev, hu]
        simp
    · rename_i hc1f
      split
      · rename_i hc2
        rw [List.all_cons]
        simp [hc2]
      · rename_i hc2f
        have hrv' : (pgp_sig_is_key_revocation key s &&
            (directCheck s.sig key.pkt).valid) = false := by
          revert hc2f
          cases pgp_sig_is_key_revocation key s && (directCheck s.sig key.pkt).valid <;>
            simp
        rw [ih]
        cases hb : b with
        | true =>
          simp only [List.all_cons, List.any_cons, hrv']
          simp
        | false =>
          have hss : pgp_sig_is_self_signature key s = false := by
            rw [hb] at hc1f
            revert hc1f
            cases pgp_sig_is_self_signature key s <;> simp
          simp only [List.all_cons, List.any_cons, hrv', hss]
          simp

theorem match_userid_check (certCheck : Signature → KeyPkt → UserIdPkt → SigCheck)
    (key : PgpKey) (s : Subsig) :
    ((match pgp_key_get_userid key s.uid with
      | some u => (certCheck s.sig key.pkt u.pkt).valid &&
          !(certCheck s.sig key.pkt u.pkt).expired
      | none => false) = true) ↔
    ∃ u, pgp_key_get_userid key s.uid = some u ∧
      (certCheck s.sig key.pkt u.pkt).valid = true ∧
      (certCheck s.sig key.pkt u.pkt).expired = false := by
  cases h : pgp_key_get_userid key s.uid <;> simp [h]

/-- C1: for every primary key, `pgp_key_validate_primary` sets `valid` to
true if and only if no signature on the key verifies as a key-revocation,
and either at least one self-certification over one of the key's own userids
verifies and is not expired, or the key is a secret key; expiration is never
considered for revocation signatures (the revocation side of the condition
mentions only the `valid` bit of the opaque direct-signature check, never
its `expired` bit). -/
theorem validate_primary_matches_spec
    (certCheck : Signature → KeyPkt → UserIdPkt → SigCheck)
    (directCheck : Signature → KeyPkt → SigCheck) (key : PgpKey)
    (hp : is_primary_key_pkt key.pkt.tag = true) :
    pgp_key_validate_primary certCheck directCheck key = true ↔
      ((∀ s ∈ key.subsigs, ¬(signature_get_type s.sig = SigType.revKey ∧
          (directCheck s.sig key.pkt).valid = true)) ∧
       ((∃ s ∈ key.subsigs, pgp_sig_is_self_signature key s = true ∧
          ∃ u, pgp_key_get_userid key s.uid = some u ∧
            (certCheck s.sig key.pkt u.pkt).valid = true ∧
            (certCheck s.sig key.pkt u.pkt).expired = false) ∨
        is_secret_key_pkt key.pkt.tag = true)) := by
  rw [pgp_key_validate_primary, validate_loop_spec]
  simp only [Bool.false_or, Bool.and_eq_true, Bool.or_eq_true, List.all_eq_true,
    List.any_eq_true, match_userid_check, Bool.not_eq_true', Bool.and_eq_false_iff,
    pgp_sig_is_key_revocation, pgp_key_is_primary_key, pgp_key_is_secret, hp,
    Bool.true_and, beq_iff_eq]
  constructor
  · rintro ⟨hrev, hcert⟩
    refine ⟨?_, ?_⟩
    · intro s hs hc
      rcases hrev s hs with h | h
      · rw [hc.1] at h; simp at h
      · rw [h] at hc; exact absurd hc.2 (by simp)
    · rcases hcert with ⟨s, hs, h1, h2⟩ | h
      · exact Or.inl ⟨s, hs, h1, h2⟩
      · exact Or.inr h
  · rintro ⟨hrev, hcert⟩
    refine ⟨?_, ?_⟩
    · intro s hs
      by_cases ht : signature_get_type s.sig = SigType.revKey
      · right
        by_cases hv : (directCheck s.sig key.pkt).valid = true
        · exact absurd ⟨ht, hv⟩ (hrev s hs)
        · revert hv; cases (directCheck s.sig key.pkt).valid <;> simp
      · left; simp [ht]
    · rcases hcert with ⟨s, hs, h1, h2⟩ | h
      · exact Or.inl ⟨s, hs, h1, h2⟩
      · exact Or.inr h

/-- C1 witness: a concrete primary public key with one self-certification
and no revocation validates, and the equivalent condition holds for it. -/
theorem validate_primary_matches_spec_witness :
    is_primary_key_pkt pgpK0.pkt.tag = true ∧
    ((∀ s ∈ pgpK0.subsigs, ¬(signature_get_type s.sig = SigType.revKey ∧
        (dirOk s.sig pgpK0.pkt).valid = true)) ∧
     ((∃ s ∈ pgpK0.subsigs, pgp_sig_is_self_signature pgpK0 s = true ∧
        ∃ u, pgp_key_get_userid pgpK0 s.uid = some u ∧
          (certOk s.sig pgpK0.pkt u.pkt).valid = true ∧
          (certOk s.sig pgpK0.pkt u.pkt).expired = false) ∨
      is_secret_key_pkt pgpK0.pkt.tag = true)) :=
  ⟨by decide,
    (validate_primary_matches_spec certOk dirOk pgpK0 (by decide)).mp (by decide)⟩

/-! C2. -/

/-- C2: for every successful subkey-binding generation by
`transferable_subkey_bind` in which the effective key flags (the explicit
binding flags, or the algorithm-default capabilities when none are given)
include Sign, the produced binding signature contains an embedded signature
of type Primary-Key-Binding, created by the subkey over the same
(primary, subkey) hash prefix (the hash state is cloned before finishing),
carrying the subkey's own keyid as its issuer-keyid subpacket. -/
theorem subkey_bind_backsig (keyidOf fpOf : KeyPkt → List Nat)
    (signOracle : List HashInput → KeyMaterial → List Nat) (now : Nat)
    (key : KeyPkt) (subkey : TransferableSubkey) (hash_alg : HashAlg)
    (binding : SelfsigBinding)
    (hsign : (if binding.key_flags ≠ 0 then binding.key_flags
        else pgp_pk_alg_capabilities key.alg) &&& PGP_KF_SIGN ≠ 0) :
    ∃ sig emb,
      (transferable_subkey_bind keyidOf fpOf signOracle now key subkey hash_alg
        binding).signatures = subkey.signatures ++ [sig] ∧
      SubPkt.embedded emb ∈ sig.unhashed ∧
      emb.sigType = SigType.sigPrimary ∧
      emb.version = 4 ∧
      signature_get_keyid emb = some (keyidOf subkey.subkey) ∧
      emb.material = some (signOracle
        (signature_hash_binding key subkey.subkey ++ [HashInput.sigDataIn emb.hashed])
        subkey.subkey.material) ∧
      sig.material = some (signOracle
        (signature_hash_binding key subkey.subkey ++ [HashInput.sigDataIn sig.hashed])
        key.material) := by
  simp only [transferable_subkey_bind]
  rw [if_pos hsign]
  refine ⟨_, calculate_primary_binding keyidOf signOracle now subkey.subkey hash_alg
      (signature_hash_binding key subkey.subkey), rfl, ?_, ?_, ?_, ?_, ?_, ?_⟩
  · simp [signature_set_keyid, signature_set_embedded_sig, signature_calculate,
      setMaterial, addUnhashedSubpkt, Signature.unhashed]
  · simp [calculate_primary_binding, signature_calculate, setMaterial,
      signature_set_keyid, signature_set_creation, addHashedSubpkt,
      addUnhashedSubpkt, Signature.sigType]
  · simp [calculate_primary_binding, signature_calculate, setMaterial,
      signature_set_keyid, signature_set_creation, addHashedSubpkt,
      addUnhashedSubpkt, Signature.version]
  · simp [calculate_primary_binding, signature_calculate, setMaterial,
      signature_set_keyid, signature_set_creation, addHashedSubpkt,
      addUnhashedSubpkt, signature_get_keyid, Signature.subpkts,
      Signature.hashed, Signature.unhashed, findIssuerKeyId]
  · simp [calculate_primary_binding, signature_calculate, setMaterial,
      signature_set_keyid, signature_set_creation, addHashedSubpkt,
      addUnhashedSubpkt, Signature.material, Signature.hashed]
  · simp [signature_set_keyid, signature_set_embedded_sig, signature_calculate,
      setMaterial, addUnhashedSubpkt, addHashedSubpkt, Signature.material,
      Signature.hashed, Signature.unhashed, signature_set_key_flags,
      signature_set_key_expiration, signature_set_creation, signature_set_keyfp,
      apply_ite Signature.material, apply_ite Signature.hashed]

/-- C2 witness: a concrete RSA primary (default capabilities include Sign)
with empty binding flags produces a binding signature with the embedded
primary-key-binding back-signature. -/
theorem subkey_bind_backsig_witness :
    ∃ sig emb,
      (transferable_subkey_bind kid0 fp0 so0 5 pubRsaPkt tsub0 HashAlg.sha256
        bind0).signatures = tsub0.signatures ++ [sig] ∧
      SubPkt.embedded emb ∈ sig.unhashed ∧
      emb.sigType = SigType.sigPrimary ∧
      emb.version = 4 ∧
      signature_get_keyid emb = some (kid0 tsub0.subkey) ∧
      emb.material = some (so0
        (signature_hash_binding pubRsaPkt tsub0.subkey ++
          [HashInput.sigDataIn emb.hashed]) tsub0.subkey.material) ∧
      sig.material = some (so0
        (signature_hash_binding pubRsaPkt tsub0.subkey ++
          [HashInput.sigDataIn sig.hashed]) pubRsaPkt.material) :=
  subkey_bind_backsig kid0 fp0 so0 5 pubRsaPkt tsub0 HashAlg.sha256 bind0
    (by decide)

/-! C4. -/

theorem bytes20_at_length (mpis : List Nat) (len : Nat) :
    (bytes20_at mpis len).length = 20 := by
  simp [bytes20_at]

theorem parse_body_not_decrypt_failed (m : KeyMaterial) (body : PktBody)
    (e : rnpResult) (h : parse_secret_mpis_body m body = Except.error e) :
    e ≠ rnpResult.decryptFailed := by
  unfold parse_secret_mpis_body at h
  repeat' split at h
  all_goals try (injection h with h; rw [← h]; simp)
  all_goals simp_all

theorem parse_mpis_decrypt_failed (sha1 : List Nat → List Nat) (key : KeyPkt)
    (mpis : List Nat) :
    (parse_secret_key_mpis sha1 key mpis).1 = rnpResult.decryptFailed ↔
      integrity_mismatch sha1 key.sec_protection.s2k.usage mpis = true := by
  cases hu : key.sec_protection.s2k.usage with
  | none =>
    simp only [parse_secret_key_mpis, integrity_mismatch, hu]
    by_cases hc : sum16 (List.take (mpis.length - 2) mpis) =
        read_uint16 mpis (mpis.length - 2)
    · cases hp : parse_secret_mpis_body key.material
          ⟨List.take (mpis.length - 2) mpis, 0⟩ with
      | error e =>
        have hne := parse_body_not_decrypt_failed _ _ _ hp
        simp [hc, hp, hne]
      | ok mb =>
        simp [hc, hp]
        split <;> simp [hc]
    · simp [hc]
  | encrypted =>
    simp only [parse_secret_key_mpis, integrity_mismatch, hu]
    by_cases hc : sum16 (List.take (mpis.length - 2) mpis) =
        read_uint16 mpis (mpis.length - 2)
    · cases hp : parse_secret_mpis_body key.material
          ⟨List.take (mpis.length - 2) mpis, 0⟩ with
      | error e =>
        have hne := parse_body_not_decrypt_failed _ _ _ hp
        simp [hc, hp, hne]
      | ok mb =>
        simp [hc, hp]
        split <;> simp [hc]
    · simp [hc]
  | encryptedAndHashed =>
    simp only [parse_secret_key_mpis, integrity_mismatch, hu]
    by_cases hl : (sha1 (List.take (mpis.length - 20) mpis)).length = 20
    · by_cases hh : sha1 (List.take (mpis.length - 20) mpis) =
          bytes20_at mpis (mpis.length - 20)
      · cases hp : parse_secret_mpis_body key.material
            ⟨List.take (mpis.length - 20) mpis, 0⟩ with
        | error e =>
          have hne := parse_body_not_decrypt_failed _ _ _ hp
          simp [hl, hh, hp, hne, bytes20_at_length]
        | ok mb =>
          simp [hl, hh, hp, bytes20_at_length]
          split <;> simp [hh, bytes20_at_length]
      · simp [hl, hh]
    · simp [hl]

theorem v3_mpis_no_decrypt_failed (cfb : CfbOracle) (enc : List Nat) (blsize : Nat) :
    ∀ (n pos : Nat) (st acc : List Nat),
      decrypt_v3_mpis cfb enc blsize n pos st acc ≠
        Except.error rnpResult.decryptFailed := by
  intro n
  induction n with
  | zero => intro pos st acc; simp [decrypt_v3_mpis]
  | succ n ih =>
    intro pos st acc
    by_cases h1 : pos + 2 > enc.length
    · simp [decrypt_v3_mpis, h1]
    · by_cases h2 : pos + 2 + (read_uint16 enc pos + 7) / 8 > enc.length
      · simp [decrypt_v3_mpis, h1, h2]
      · by_cases h3 : (read_uint16 enc pos + 7) / 8 < blsize
        · simp [decrypt_v3_mpis, h1, h2, h3]
        · simp only [decrypt_v3_mpis]
          rw [if_neg h1, if_neg h2, if_neg h3]
          exact ih _ _ _

theorem v3_no_decrypt_failed (cfb : CfbOracle) (blsize : Nat) (st enc : List Nat) :
    decrypt_secret_key_v3 cfb blsize st enc ≠
      Except.error rnpResult.decryptFailed := by
  unfold decrypt_secret_key_v3
  split
  · simp
  · split
    · rename_i e heq
      intro hc
      injection hc with hc
      subst hc
      exact v3_mpis_no_decrypt_failed cfb enc blsize 4 0 st [] heq
    · split <;> simp

/-- C4: `decrypt_secret_key` fails with DecryptFailed exactly when the
integrity check over the decrypted plaintext fails: when s2k usage is
EncryptedAndHashed the trailing 20-byte SHA-1 over the preceding plaintext
must match, otherwise the trailing 16-bit sum16 over the plaintext MPI
region must match.  In particular, unprotecting with a wrong password
yields a plaintext whose integrity check fails, and then the result is
DecryptFailed. -/
theorem decrypt_failed_iff (cfb : CfbOracle) (sha1 : List Nat → List Nat)
    (s2kDerive : S2K → String → Nat → Option (List Nat)) (key : KeyPkt)
    (password : Option String) :
    (decrypt_secret_key cfb sha1 s2kDerive key password).1 =
      rnpResult.decryptFailed ↔
    (∃ pt, secret_plaintext cfb s2kDerive key password = some pt ∧
      integrity_mismatch sha1 key.sec_protection.s2k.usage pt = true) := by
  unfold decrypt_secret_key secret_plaintext
  by_cases hS : is_secret_key_pkt key.tag = true
  case neg =>
    simp only [Bool.not_eq_true] at hS
    simp [hS]
  case pos =>
  by_cases hU : key.sec_protection.s2k.usage = S2KUsage.none
  · simp [hS, hU, parse_mpis_decrypt_failed]
  · cases password with
    | none => simp [hS, hU]
    | some pw =>
      by_cases hM : key.sec_protection.cipher_mode = CipherMode.cfb
      case neg => simp [hS, hU, hM]
      case pos =>
      by_cases hK : pgp_key_size key.sec_protection.symm_alg = 0
      · simp [hS, hU, hM, hK]
      · cases hD : s2kDerive key.sec_protection.s2k pw
            (pgp_key_size key.sec_protection.symm_alg) with
        | none => simp [hS, hU, hM, hK, hD]
        | some keybuf =>
          by_cases hV3 : key.version = 3
          · by_cases hR : is_rsa_key_alg key.alg = true
            case neg =>
              simp only [Bool.not_eq_true] at hR
              simp [hS, hU, hM, hK, hD, hV3, hR]
            case pos =>
              cases hE : decrypt_secret_key_v3 cfb
                  (pgp_block_size key.sec_protection.symm_alg)
                  (cfb.start key.sec_protection.symm_alg keybuf
                    key.sec_protection.iv)
                  key.sec_data with
              | error e =>
                simp [hS, hU, hM, hK, hD, hV3, hR, hE]
                intro hc
                rw [hc] at hE
                exact v3_no_decrypt_failed cfb _ _ _ hE
              | ok dec =>
                simp [hS, hU, hM, hK, hD, hV3, hR, hE, parse_mpis_decrypt_failed]
          · by_cases hV4 : key.version = 4
            · simp [hS, hU, hM, hK, hD, hV3, hV4, parse_mpis_decrypt_failed]
            · simp [hS, hU, hM, hK, hD, hV3, hV4]

/-! C3: algebra of `merge_signatures` and `transferable_key_merge`. -/

theorem mem_list_has_signature (l : List Signature) (s : Signature) (h : s ∈ l) :
    list_has_signature l s = true := by
  simp only [list_has_signature, List.any_eq_true]
  exact ⟨s, h, signature_pkt_equal_refl s⟩

theorem list_has_signature_append (l ex : List Signature) (s : Signature)
    (h : list_has_signature l s = true) : list_has_signature (l ++ ex) s = true := by
  simp only [list_has_signature, List.any_eq_true] at h ⊢
  rcases h with ⟨x, hx, he⟩
  exact ⟨x, List.mem_append_left ex hx, he⟩

theorem merge_signatures_cons (dst : List Signature) (s : Signature)
    (rest : List Signature) :
    merge_signatures dst (s :: rest) =
      if list_has_signature dst s then merge_signatures dst rest
      else merge_signatures (dst ++ [s]) rest := by
  simp only [merge_signatures, List.foldl_cons]
  by_cases h : list_has_signature dst s = true
  · simp [h]
  · simp only [Bool.not_eq_true] at h
    simp [h]

theorem merge_signatures_eq_append (src : List Signature) :
    ∀ dst, merge_signatures dst src = dst ++ newSigs dst src := by
  induction src with
  | nil => intro dst; simp [merge_signatures, newSigs]
  | cons s rest ih =>
    intro dst
    rw [merge_signatures_cons]
    by_cases h : list_has_signature dst s = true
    · simp [newSigs, h, ih dst]
    · simp only [Bool.not_eq_true] at h
      simp [newSigs, h, ih (dst ++ [s])]

theorem list_has_merge_left (dst src : List Signature) (s : Signature)
    (h : list_has_signature dst s = true) :
    list_has_signature (merge_signatures dst src) s = true := by
  rw [merge_signatures_eq_append]
  exact list_has_signature_append dst (newSigs dst src) s h

theorem list_has_merge_src (src : List Signature) :
    ∀ dst, ∀ s ∈ src, list_has_signature (merge_signatures dst src) s = true := by
  induction src with
  | nil => intro dst s hs; cases hs
  | cons a rest ih =>
    intro dst s hs
    rw [merge_signatures_cons]
    rcases List.mem_cons.mp hs with rfl | hmem
    · by_cases h : list_has_signature dst s = true
      · rw [if_pos h]
        exact list_has_merge_left dst rest s h
      · simp only [Bool.not_eq_true] at h
        rw [if_neg (by simp [h])]
        exact list_has_merge_left (dst ++ [s]) rest s
          (mem_list_has_signature (dst ++ [s]) s (by simp))
    · by_cases h : list_has_signature dst a = true
      · rw [if_pos h]
        exact ih dst s hmem
      · simp only [Bool.not_eq_true] at h
        rw [if_neg (by simp [h])]
        exact ih (dst ++ [a]) s hmem

theorem merge_signatures_absorb (src : List Signature) :
    ∀ dst, (∀ s ∈ src, list_has_signature dst s = true) →
      merge_signatures dst src = dst := by
  induction src with
  | nil => intro dst _; rfl
  | cons a rest ih =>
    intro dst h
    rw [merge_signatures_cons, if_pos (h a (by simp))]
    exact ih dst (fun s hs => h s (by simp [hs]))

theorem merge_signatures_length (src : List Signature) :
    ∀ dst, dst.length ≤ (merge_signatures dst src).length ∧
      (merge_signatures dst src).length ≤ dst.length + src.length := by
  induction src with
  | nil => intro dst; simp [merge_signatures]
  | cons a rest ih =>
    intro dst
    rw [merge_signatures_cons]
    by_cases h : list_has_signature dst a = true
    · rw [if_pos h]
      have hr := ih dst
      simp only [List.length_cons]
      omega
    · simp only [Bool.not_eq_true] at h
      rw [if_neg (by simp [h])]
      have hr := ih (dst ++ [a])
      simp only [List.length_append, List.length_cons, List.length_nil] at hr ⊢
      omega

theorem upsertUserid_absorb (uids : List TransferableUserId)
    (u : TransferableUserId) (h : uidHolds uids u) : upsertUserid uids u = uids := by
  induction uids with
  | nil => exact h.elim
  | cons d rest ih =>
    simp only [uidHolds] at h
    simp only [upsertUserid]
    rcases h with ⟨he, hsub⟩ | ⟨he, hrest⟩
    · rw [if_pos he, merge_signatures_absorb u.signatures d.signatures hsub]
    · rw [if_neg (by simp [he]), ih hrest]

theorem upsertUserid_establish (uids : List TransferableUserId)
    (u : TransferableUserId) : uidHolds (upsertUserid uids u) u := by
  induction uids with
  | nil =>
    simp only [upsertUserid, uidHolds]
    left
    exact ⟨userid_pkt_equal_refl u.uid, fun s hs => mem_list_has_signature _ s hs⟩
  | cons d rest ih =>
    simp only [upsertUserid]
    by_cases he : userid_pkt_equal d.uid u.uid = true
    · rw [if_pos he]
      simp only [uidHolds]
      left
      exact ⟨he, fun s hs => list_has_merge_src u.signatures d.signatures s hs⟩
    · simp only [Bool.not_eq_true] at he
      rw [if_neg (by simp [he])]
      simp only [uidHolds]
      right
      exact ⟨he, ih⟩

theorem upsertUserid_preserve (uids : List TransferableUserId)
    (u v : TransferableUserId) (h : uidHolds uids u) :
    uidHolds (upsertUserid uids v) u := by
  induction uids with
  | nil => exact h.elim
  | cons d rest ih =>
    simp only [uidHolds] at h
    simp only [upsertUserid]
    by_cases hv : userid_pkt_equal d.uid v.uid = true
    · rw [if_pos hv]
      simp only [uidHolds]
      rcases h with ⟨he, hsub⟩ | ⟨he, hrest⟩
      · left
        exact ⟨he, fun s hs => list_has_merge_left d.signatures v.signatures s (hsub s hs)⟩
      · right
        exact ⟨he, hrest⟩
    · simp only [Bool.not_eq_true] at hv
      rw [if_neg (by simp [hv])]
      simp only [uidHolds]
      rcases h with ⟨he, hsub⟩ | ⟨he, hrest⟩
      · left; exact ⟨he, hsub⟩
      · right; exact ⟨he, ih hrest⟩

theorem foldl_upsertUserid_preserve (vs : List TransferableUserId) :
    ∀ acc u, uidHolds acc u → uidHolds (vs.foldl upsertUserid acc) u := by
  induction vs with
  | nil => intro acc u h; exact h
  | cons v rest ih =>
    intro acc u h
    rw [List.foldl_cons]
    exact ih (upsertUserid acc v) u (upsertUserid_preserve acc u v h)

theorem foldl_upsertUserid_establish (vs : List TransferableUserId) :
    ∀ acc, ∀ u ∈ vs, uidHolds (vs.foldl upsertUserid acc) u := by
  induction vs with
  | nil => intro acc u hu; cases hu
  | cons v rest ih =>
    intro acc u hu
    rw [List.foldl_cons]
    rcases List.mem_cons.mp hu with rfl | hmem
    · exact foldl_upsertUserid_preserve rest (upsertUserid acc u) u
        (upsertUserid_establish acc u)
    · exact ih (upsertUserid acc v) u hmem

theorem foldl_upsertUserid_absorb (vs : List TransferableUserId) :
    ∀ acc, (∀ u ∈ vs, uidHolds acc u) → vs.foldl upsertUserid acc = acc := by
  induction vs with
  | nil => intro acc _; rfl
  | cons v rest ih =>
    intro acc h
    rw [List.foldl_cons, upsertUserid_absorb acc v (h v (by simp))]
    exact ih acc (fun u hu => h u (by simp [hu]))

theorem uidsDistinct_holds (uids : List TransferableUserId) :
    uidsDistinct uids = true → ∀ u ∈ uids, uidHolds uids u := by
  induction uids with
  | nil => intro _ u hu; cases hu
  | cons d rest ih =>
    intro h u hu
    simp only [uidsDistinct, Bool.and_eq_true, List.all_eq_true,
      Bool.not_eq_true'] at h
    simp only [uidHolds]
    rcases List.mem_cons.mp hu with rfl | hmem
    · left
      exact ⟨userid_pkt_equal_refl u.uid, fun s hs => mem_list_has_signature _ s hs⟩
    · right
      exact ⟨h.1 u hmem, ih h.2 u hmem⟩

theorem upsertSubkey_absorb (subs : List TransferableSubkey)
    (u : TransferableSubkey) (h : skeyHolds subs u) : upsertSubkey subs u = subs := by
  induction subs with
  | nil => exact h.elim
  | cons d rest ih =>
    simp only [skeyHolds] at h
    simp only [upsertSubkey]
    rcases h with ⟨he, hsub⟩ | ⟨he, hrest⟩
    · rw [if_pos he, merge_signatures_absorb u.signatures d.signatures hsub]
    · rw [if_neg (by simp [he]), ih hrest]

theorem upsertSubkey_establish (subs : List TransferableSubkey)
    (u : TransferableSubkey) : skeyHolds (upsertSubkey subs u) u := by
  induction subs with
  | nil =>
    simp only [upsertSubkey, skeyHolds]
    left
    exact ⟨key_pkt_equal_refl u.subkey true, fun s hs => mem_list_has_signature _ s hs⟩
  | cons d rest ih =>
    simp only [upsertSubkey]
    by_cases he : key_pkt_equal d.subkey u.subkey true = true
    · rw [if_pos he]
      simp only [skeyHolds]
      left
      exact ⟨he, fun s hs => list_has_merge_src u.signatures d.signatures s hs⟩
    · simp only [Bool.not_eq_true] at he
      rw [if_neg (by simp [he])]
      simp only [skeyHolds]
      right
      exact ⟨he, ih⟩

theorem upsertSubkey_preserve (subs : List TransferableSubkey)
    (u v : TransferableSubkey) (h : skeyHolds subs u) :
    skeyHolds (upsertSubkey subs v) u := by
  induction subs with
  | nil => exact h.elim
  | cons d rest ih =>
    simp only [skeyHolds] at h
    simp only [upsertSubkey]
    by_cases hv : key_pkt_equal d.subkey v.subkey true = true
    · rw [if_pos hv]
      simp only [skeyHolds]
      rcases h with ⟨he, hsub⟩ | ⟨he, hrest⟩
      · left
        exact ⟨he, fun s hs => list_has_merge_left d.signatures v.signatures s (hsub s hs)⟩
      · right
        exact ⟨he, hrest⟩
    · simp only [Bool.not_eq_true] at hv
      rw [if_neg (by simp [hv])]
      simp only [skeyHolds]
      rcases h with ⟨he, hsub⟩ | ⟨he, hrest⟩
      · left; exact ⟨he, hsub⟩
      · right; exact ⟨he, ih hrest⟩

theorem foldl_upsertSubkey_preserve (vs : List TransferableSubkey) :
    ∀ acc u, skeyHolds acc u → skeyHolds (vs.foldl upsertSubkey acc) u := by
  induction vs with
  | nil => intro acc u h; exact h
  | cons v rest ih =>
    intro acc u h
    rw [List.foldl_cons]
    exact ih (upsertSubkey acc v) u (upsertSubkey_preserve acc u v h)

theorem foldl_upsertSubkey_establish (vs : List TransferableSubkey) :
    ∀ acc, ∀ u ∈ vs, skeyHolds (vs.foldl upsertSubkey acc) u := by
  induction vs with
  | nil => intro acc u hu; cases hu
  | cons v rest ih =>
    intro acc u hu
    rw [List.foldl_cons]
    rcases List.mem_cons.mp hu with rfl | hmem
    · exact foldl_upsertSubkey_preserve rest (upsertSubkey acc u) u
        (upsertSubkey_establish acc u)
    · exact ih (upsertSubkey acc v) u hmem

theorem foldl_upsertSubkey_absorb (vs : List TransferableSubkey) :
    ∀ acc, (∀ u ∈ vs, skeyHolds acc u) → vs.foldl upsertSubkey acc = acc := by
  induction vs with
  | nil => intro acc _; rfl
  | cons v rest ih =>
    intro acc h
    rw [List.foldl_cons, upsertSubkey_absorb acc v (h v (by simp))]
    exact ih acc (fun u hu => h u (by simp [hu]))

theorem subkeysDistinct_holds (subs : List TransferableSubkey) :
    subkeysDistinct subs = true → ∀ u ∈ subs, skeyHolds subs u := by
  induction subs with
  | nil => intro _ u hu; cases hu
  | cons d rest ih =>
    intro h u hu
    simp only [subkeysDistinct, Bool.and_eq_true, List.all_eq_true,
      Bool.not_eq_true'] at h
    simp only [skeyHolds]
    rcases List.mem_cons.mp hu with rfl | hmem
    · left
      exact ⟨key_pkt_equal_refl u.subkey true, fun s hs => mem_list_has_signature _ s hs⟩
    · right
      exact ⟨h.1 u hmem, ih h.2 u hmem⟩

theorem key_merge_idem (A B AB : TransferableKey)
    (h : transferable_key_merge A B = Except.ok AB) :
    transferable_key_merge AB B = Except.ok AB := by
  unfold transferable_key_merge at h
  by_cases hk : key_pkt_equal A.key B.key true = true
  · rw [if_pos hk] at h
    injection h with h
    subst h
    have e1 : merge_signatures (merge_signatures A.signatures B.signatures)
        B.signatures = merge_signatures A.signatures B.signatures :=
      merge_signatures_absorb B.signatures (merge_signatures A.signatures B.signatures)
        (fun s hs => list_has_merge_src B.signatures A.signatures s hs)
    have e2 : List.foldl upsertUserid (List.foldl upsertUserid A.userids B.userids)
        B.userids = List.foldl upsertUserid A.userids B.userids :=
      foldl_upsertUserid_absorb B.userids (List.foldl upsertUserid A.userids B.userids)
        (foldl_upsertUserid_establish B.userids A.userids)
    have e3 : List.foldl upsertSubkey (List.foldl upsertSubkey A.subkeys B.subkeys)
        B.subkeys = List.foldl upsertSubkey A.subkeys B.subkeys :=
      foldl_upsertSubkey_absorb B.subkeys (List.foldl upsertSubkey A.subkeys B.subkeys)
        (foldl_upsertSubkey_establish B.subkeys A.subkeys)
    simp [transferable_key_merge, hk, e1, e2, e3]
  · rw [if_neg (by simp [hk])] at h
    simp at h

/-- C3 counterexample: merging the duplicate-userid key `Kdup` with itself is
not the identity: the userid loop merges the second copy's signature into the
FIRST userid carrying a byte-equal packet, so the first userid gains a
signature. -/
theorem merge_self_counterexample :
    transferable_key_merge Kdup Kdup ≠ Except.ok Kdup := by
  intro h
  have h2 := congrArg (fun e : Except rnpResult TransferableKey => match e with
    | Except.ok k => k.userids.map (fun u : TransferableUserId => u.signatures.length)
    | Except.error _ => ([] : List Nat)) h
  exact absurd h2 (by decide)

/-- C3 (amended): `merge_signatures dst src` appends exactly the signatures of
`src` not byte-equal to any signature already in the growing destination
(`newSigs`), in source order; the result length is between `dst.length` and
`dst.length + src.length`; merging a transferable key with itself returns the
key unchanged PROVIDED its userid packets are pairwise distinct and its
subkeys have pairwise non-equal public halves (with a repeated userid packet,
self-merge moves signatures onto the first copy — see the counterexample);
and merge is idempotent: a successful merge of A with B absorbs a second
merge with B. -/
theorem merge_algebra_matches_spec (dst src : List Signature)
    (A B K : TransferableKey) :
    (merge_signatures dst src = dst ++ newSigs dst src) ∧
    (dst.length ≤ (merge_signatures dst src).length ∧
      (merge_signatures dst src).length ≤ dst.length + src.length) ∧
    (uidsDistinct K.userids = true → subkeysDistinct K.subkeys = true →
      transferable_key_merge K K = Except.ok K) ∧
    (∀ AB, transferable_key_merge A B = Except.ok AB →
      transferable_key_merge AB B = Except.ok AB) := by
  refine ⟨merge_signatures_eq_append src dst, merge_signatures_length src dst, ?_, ?_⟩
  · intro hu hsk
    have hs : merge_signatures K.signatures K.signatures = K.signatures :=
      merge_signatures_absorb K.signatures K.signatures
        (fun s hmem => mem_list_has_signature K.signatures s hmem)
    have husr : List.foldl upsertUserid K.userids K.userids = K.userids :=
      foldl_upsertUserid_absorb K.userids K.userids (uidsDistinct_holds K.userids hu)
    have hsub : List.foldl upsertSubkey K.subkeys K.subkeys = K.subkeys :=
      foldl_upsertSubkey_absorb K.subkeys K.subkeys (subkeysDistinct_holds K.subkeys hsk)
    unfold transferable_key_merge
    rw [if_pos (key_pkt_equal_refl K.key true), hs, husr, hsub]
  · exact fun AB h => key_merge_idem A B AB h

/-- C3 witness: the distinct-userid key `Kok` satisfies the amended side
conditions, self-merge returns it unchanged, and the idempotence part applied
at `A = B = Kok` re-absorbs. -/
theorem merge_algebra_matches_spec_witness :
    uidsDistinct Kok.userids = true ∧ subkeysDistinct Kok.subkeys = true ∧
    transferable_key_merge Kok Kok = Except.ok Kok := by
  have h1 : uidsDistinct Kok.userids = true := by decide
  have h2 : subkeysDistinct Kok.subkeys = true := by decide
  exact ⟨h1, h2,
    (merge_algebra_matches_spec [] [] Kok Kok Kok).2.2.1 h1 h2⟩

end Rnp
